import Mathlib

/-!
Verification development for the antigravity-server protocol-translation
pipeline: the JSON Schema rewriter (`cleanSchema`), the request transformer
(`transformRequest`), the response transformers (`transformResponse`,
`transformAntigravityEvent`) and the SSE frame parser (`parseSSEChunk`).

The TypeScript sources are shallowly embedded: JavaScript values are modelled
by the inductive type `Json`, JavaScript objects by association lists in
insertion order (JS objects have unique string keys, so all object
constructions go through `canonEntries`, which models the key-uniqueness that
the JS runtime maintains).  Recursive tree rewrites are modelled with an
explicit fuel parameter (the JS recursion is unbounded but terminating on
finite values; the fuel supplied by the top-level entry points is generous,
and all universal theorems are proved for every fuel value).
-/

namespace Antigravity

/-- A JavaScript/JSON value.  `num` uses rationals: every numeric literal the
pipeline manipulates is an integer, and rationals embed those exactly. -/
inductive Json where
  | null : Json
  | bool : Bool → Json
  | num : Rat → Json
  | str : String → Json
  | arr : List Json → Json
  | obj : List (String × Json) → Json
deriving Repr, Inhabited

/-- JS truthiness: `undefined`, `null`, `false`, `0`, `NaN` and `""` are
falsy, everything else (including `[]` and `{}`) is truthy. -/
def truthy : Json → Bool
  | .null => false
  | .bool b => b
  | .num q => q != 0
  | .str s => s ≠ ""
  | .arr _ => true
  | .obj _ => true

/-- `typeof v === "object" && v !== null` (arrays included). -/
def isContainer : Json → Bool
  | .arr _ => true
  | .obj _ => true
  | _ => false

/-- First binding for key `k` (association lists built by the embedding are
duplicate-free, so this is the JS property read). -/
def objGet (l : List (String × Json)) (k : String) : Option Json :=
  (l.find? (fun p => p.1 == k)).map (·.2)

/-- JS property assignment `o[k] = v`: updates an existing key in place,
otherwise appends the new key at the end (JS insertion order). -/
def objSet (l : List (String × Json)) (k : String) (v : Json) :
    List (String × Json) :=
  match l with
  | [] => [(k, v)]
  | (k', v') :: rest =>
    if k' == k then (k', v) :: rest else (k', v') :: objSet rest k v

/-- JS `delete o[k]`. -/
def objDelete (l : List (String × Json)) (k : String) : List (String × Json) :=
  l.filter (fun p => p.1 != k)

/-- Rebuilds an entry list with unique keys, first-occurrence position and
last-written value, exactly as the JS runtime stores objects.  Phase
functions apply this where the source spreads or enumerates an object. -/
def canonEntries (l : List (String × Json)) : List (String × Json) :=
  l.foldl (fun acc p => objSet acc p.1 p.2) []

/-- `Object.entries(v)` for the values the pipeline enumerates: objects give
their key/value pairs and arrays their index/element pairs. -/
def jsEntriesOf : Json → List (String × Json)
  | .obj l => canonEntries l
  | .arr l => l.enum.map (fun p => (toString p.1, p.2))
  | _ => []

/-- `Object.keys(v)` (own enumerable keys). -/
def jsKeysOf (v : Json) : List String :=
  (jsEntriesOf v).map (·.1)

/-- `Object.prototype.hasOwnProperty.call(v, k)` for a string key. -/
def jsHasOwn (v : Json) (k : String) : Bool :=
  match v with
  | .obj l => (objGet (canonEntries l) k).isSome
  | .arr l => (l.enum.map (fun p => toString p.1)).contains k || k == "length"
  | _ => false

/-- Property read `v.k` on an arbitrary value; non-containers have no own
properties that the pipeline reads. -/
def getProp (v : Json) (k : String) : Option Json :=
  match v with
  | .obj l => objGet (canonEntries l) k
  | _ => none

/-- Truthiness of a possibly-absent property (`undefined` is falsy). -/
def optTruthy : Option Json → Bool
  | none => false
  | some v => truthy v

/-- Indexed read `v[i]`: array elements, object properties named by the
index, characters of a string. -/
def getIndex (v : Json) (i : Nat) : Option Json :=
  match v with
  | .arr l => l.get? i
  | .obj l => objGet (canonEntries l) (toString i)
  | .str s => (s.data.get? i).map (fun c => Json.str (String.mk [c]))
  | _ => none

def Json.isArr : Json → Bool
  | .arr _ => true
  | _ => false

/-- `typeof v === "object"` (true for `null` as well, per JS). -/
def typeofObject : Json → Bool
  | .null => true
  | .arr _ => true
  | .obj _ => true
  | _ => false

def Json.isStr : Json → Bool
  | .str _ => true
  | _ => false

/-! ### String helpers

Core string functions are re-implemented on `List Char` so that all
definitions reduce inside the kernel (the built-in `String` loops do not).
They model the exact JavaScript operations the sources use. -/

/-- `String.prototype.toLowerCase` (ASCII, which covers every identifier the
sources compare). -/
def lowerS (s : String) : String := ⟨s.data.map Char.toLower⟩

/-- `String.prototype.toUpperCase` (ASCII). -/
def upperS (s : String) : String := ⟨s.data.map Char.toUpper⟩

def isPrefB : List Char → List Char → Bool
  | [], _ => true
  | _ :: _, [] => false
  | a :: as, b :: bs => a == b && isPrefB as bs

def isInfB (needle : List Char) : List Char → Bool
  | [] => needle.isEmpty
  | c :: rest => isPrefB needle (c :: rest) || isInfB needle rest

/-- `String.prototype.includes`. -/
def jsIncludes (s sub : String) : Bool := isInfB sub.data s.data

def splitListOn (c : Char) : List Char → List (List Char)
  | [] => [[]]
  | x :: rest =>
    let r := splitListOn c rest
    if x == c then [] :: r
    else
      match r with
      | h :: t => (x :: h) :: t
      | [] => [[x]]

/-- `String.prototype.split` with a single-character separator. -/
def splitOnChar (c : Char) (s : String) : List String :=
  (splitListOn c s.data).map String.mk

/-- The characters `String.prototype.trim` removes (ASCII whitespace; the
sources only feed it protocol text). -/
def jsIsSpace (c : Char) : Bool :=
  c == ' ' || c == '\t' || c == '\n' || c == '\r' || c == '\x0b' || c == '\x0c'

/-- `String.prototype.trim`. -/
def jsTrim (s : String) : String :=
  ⟨((s.data.dropWhile jsIsSpace).reverse.dropWhile jsIsSpace).reverse⟩

/-- `String.prototype.trimStart`. -/
def jsTrimStart (s : String) : String := ⟨s.data.dropWhile jsIsSpace⟩

/-! ### JavaScript string coercion

`String(v)` / template-literal coercion, used for description hints,
`required` property-key lookups and `Array.prototype.join`.  Numbers are
exact for integers (the only numbers the claims exercise); non-integral
rationals are rendered as a fraction, an approximation of JS float
formatting that no theorem depends on. -/

def ratToString (q : Rat) : String :=
  if q.den == 1 then toString q.num else toString q.num ++ "/" ++ toString q.den

/-- `String(v)`.  Arrays stringify as their elements joined with `","`
(null elements becoming empty), objects as `"[object Object]"`. -/
def jsToString : Nat → Json → String
  | 0, _ => ""
  | _ + 1, .null => "null"
  | _ + 1, .bool b => if b then "true" else "false"
  | _ + 1, .num q => ratToString q
  | _ + 1, .str s => s
  | fuel + 1, .arr l =>
    String.intercalate ","
      (l.map (fun e => match e with | .null => "" | _ => jsToString fuel e))
  | _ + 1, .obj _ => "[object Object]"

/-- `Array.prototype.join(sep)` on a list of values. -/
def jsJoin (fuel : Nat) (sep : String) (l : List Json) : String :=
  String.intercalate sep
    (l.map (fun e => match e with | .null => "" | _ => jsToString fuel e))

/-! ### Spread and merge -/

/-- Entries contributed by a spread `{...v}`: objects give their key/value
pairs, arrays and strings their indexed elements, primitives nothing. -/
def jsSpreadEntries : Json → List (String × Json)
  | .obj l => canonEntries l
  | .arr l => l.enum.map (fun p => (toString p.1, p.2))
  | .str s => s.data.enum.map (fun p => (toString p.1, Json.str (String.mk [p.2])))
  | _ => []

/-- `{...a, ...b}` given entry lists for `a` and `b`. -/
def spreadMerge (a b : List (String × Json)) : List (String × Json) :=
  b.foldl (fun acc p => objSet acc p.1 p.2) a

/-- Items produced by an iterator spread `[...v]`: array elements, or the
characters of a string as one-character strings.  Spreading any other value
throws in JS; the pipeline never does that on reachable inputs, and the
model yields no items there. -/
def jsIterItems : Json → List Json
  | .arr l => l
  | .str s => s.data.map (fun c => Json.str (String.mk [c]))
  | _ => []

/-- SameValueZero equality as used by `Set`: primitives compare by value;
objects and arrays compare by reference, and distinct tree nodes of a parsed
document are distinct references, so containers are modelled as never
equal. -/
def primEqB : Json → Json → Bool
  | .null, .null => true
  | .bool a, .bool b => a == b
  | .num a, .num b => a == b
  | .str a, .str b => a == b
  | _, _ => false

/-- `[...new Set(l)]`: first occurrence kept, order preserved. -/
def dedupJson (l : List Json) : List Json :=
  l.foldl (fun acc e => if acc.any (fun x => primEqB x e) then acc else acc ++ [e]) []

/-!
## Schema cleaner (src/transform/schema-cleaner.ts)

Each phase takes a fuel argument bounding the recursion depth; the JS
functions recurse without bound but terminate on all finite values, and the
fixed fuel supplied by `cleanSchema` far exceeds the depth any reachable
schema produces.  Exhausted fuel yields `Json.null`.  Every theorem that
quantifies over schemas is proved for every fuel value.

JS objects have unique keys, so obj entry lists are canonicalized
(`canonEntries`, modelling `{...schema}` / `Object.entries`) before the
per-object rewriting; on a canonical list, building a fresh object by
repeated `result[key] = v` assignments appends in iteration order, which the
model renders as `filterMap`/`map` over the canonical entries.
-/

def MAX_DEPTH : Nat := 20

def EMPTY_SCHEMA_PLACEHOLDER_NAME : String := "_placeholder"
def EMPTY_SCHEMA_PLACEHOLDER_DESCRIPTION : String := "Placeholder. Always pass true."

def UNSUPPORTED_CONSTRAINTS : List String :=
  ["minLength", "maxLength", "minimum", "maximum", "exclusiveMinimum",
   "exclusiveMaximum", "multipleOf", "minItems", "maxItems", "uniqueItems",
   "minProperties", "maxProperties", "pattern", "format"]

def UNSUPPORTED_KEYWORDS : List String :=
  UNSUPPORTED_CONSTRAINTS ++
  ["$schema", "$defs", "definitions", "$ref", "$id", "$comment", "const",
   "additionalProperties", "title", "default", "examples", "readOnly",
   "writeOnly", "contentEncoding", "contentMediaType", "if", "then", "else",
   "not", "dependentSchemas", "dependentRequired", "patternProperties",
   "propertyNames", "unevaluatedProperties", "unevaluatedItems",
   "minContains", "maxContains"]

/-- `appendDescriptionHint(schema, hint)` on an entry list for `schema`. -/
def appendDescriptionHint (l : List (String × Json)) (hint : String) :
    List (String × Json) :=
  let currentDesc := match objGet l "description" with
    | some (.str s) => s
    | _ => ""
  let formattedHint := "(" ++ hint ++ ")"
  if jsIncludes currentDesc formattedHint then l
  else
    objSet l "description"
      (.str (if currentDesc ≠ "" then currentDesc ++ " " ++ formattedHint
             else formattedHint))

/-- Json-level `appendDescriptionHint` for the one call site that may receive
a non-object (`flattenAnyOfOneOf` on the selected branch). -/
def appendDescriptionHintJ (j : Json) (hint : String) : Json :=
  let currentDesc := match getProp j "description" with
    | some (.str s) => s
    | _ => ""
  let formattedHint := "(" ++ hint ++ ")"
  if jsIncludes currentDesc formattedHint then j
  else
    .obj (objSet (jsSpreadEntries j) "description"
      (.str (if currentDesc ≠ "" then currentDesc ++ " " ++ formattedHint
             else formattedHint)))

/-- Recursion step shared by the spread-style phases: apply `f` to every
container-valued entry (`result[key] = phase(value)`). -/
def mapContainerValues (f : Json → Json) (l : List (String × Json)) :
    List (String × Json) :=
  l.map (fun p => (p.1, if isContainer p.2 then f p.2 else p.2))

/-- Phase 1a `convertRefsToHints`. -/
def convertRefsToHints : Nat → Json → Json
  | 0, _ => .null
  | fuel + 1, .arr l => .arr (l.map (convertRefsToHints fuel))
  | fuel + 1, .obj l =>
    let r0 := canonEntries l
    let r1 := match objGet r0 "$ref" with
      | some (.str ref) =>
        let refName := match (splitOnChar '/' ref).getLast? with
          | some last => if last ≠ "" then last else "ref"
          | none => "ref"
        let r := objDelete r0 "$ref"
        let r := objSet r "type"
          (match objGet r "type" with
           | some t => if truthy t then t else .str "object"
           | none => .str "object")
        appendDescriptionHint r ("See: " ++ refName)
      | _ => r0
    .obj (mapContainerValues (convertRefsToHints fuel) r1)
  | _ + 1, x => x

/-- Phase 1b `convertConstToEnum`. -/
def convertConstToEnum : Nat → Json → Json
  | 0, _ => .null
  | fuel + 1, .arr l => .arr (l.map (convertConstToEnum fuel))
  | fuel + 1, .obj l =>
    let r0 := canonEntries l
    let r1 := match objGet r0 "const" with
      | some c =>
        let r := objSet r0 "enum" (.arr [.str (jsToString fuel c)])
        let r := objSet r "type"
          (match objGet r "type" with
           | some t => if truthy t then t else .str "string"
           | none => .str "string")
        objDelete r "const"
      | none => r0
    .obj (mapContainerValues (convertConstToEnum fuel) r1)
  | _ + 1, x => x

/-- Phase 1c `addEnumHints`. -/
def addEnumHints : Nat → Json → Json
  | 0, _ => .null
  | fuel + 1, .arr l => .arr (l.map (addEnumHints fuel))
  | fuel + 1, .obj l =>
    let r0 := canonEntries l
    let r1 := match objGet r0 "enum" with
      | some (.arr es) =>
        if es.length > 0 then
          let values := jsJoin fuel ", " (es.take 10)
          let suffix := if es.length > 10 then ", ..." else ""
          appendDescriptionHint r0 ("Allowed: " ++ values ++ suffix)
        else r0
      | _ => r0
    .obj (mapContainerValues (addEnumHints fuel) r1)
  | _ + 1, x => x

/-- Phase 1d `addAdditionalPropertiesHints`. -/
def addAdditionalPropertiesHints : Nat → Json → Json
  | 0, _ => .null
  | fuel + 1, .arr l => .arr (l.map (addAdditionalPropertiesHints fuel))
  | fuel + 1, .obj l =>
    let r0 := canonEntries l
    let r1 := match objGet r0 "additionalProperties" with
      | some (.bool false) => appendDescriptionHint r0 "no extra properties"
      | _ => r0
    .obj (mapContainerValues (addAdditionalPropertiesHints fuel) r1)
  | _ + 1, x => x

/-- Phase 1e `moveConstraintsToDescription`. -/
def moveConstraintsToDescription : Nat → Json → Json
  | 0, _ => .null
  | fuel + 1, .arr l => .arr (l.map (moveConstraintsToDescription fuel))
  | fuel + 1, .obj l =>
    let r0 := canonEntries l
    let r1 := UNSUPPORTED_CONSTRAINTS.foldl
      (fun acc ck =>
        match objGet acc ck with
        | some v => appendDescriptionHint acc (ck ++ ": " ++ jsToString fuel v)
        | none => acc) r0
    .obj (mapContainerValues (moveConstraintsToDescription fuel) r1)
  | _ + 1, x => x

/-- Phase 2a `mergeAllOf`. -/
def mergeAllOf : Nat → Json → Json
  | 0, _ => .null
  | fuel + 1, .arr l => .arr (l.map (mergeAllOf fuel))
  | fuel + 1, .obj l =>
    let r0 := canonEntries l
    let r1 := match objGet r0 "allOf" with
      | some (.arr subs) =>
        if subs.length > 0 then
          let step := fun (acc : List (String × Json) × List Json) (sub : Json) =>
            let processed := mergeAllOf fuel sub
            let merged := acc.1
            let merged :=
              if optTruthy (getProp processed "properties") then
                objSet merged "properties"
                  (.obj (spreadMerge
                    (match objGet merged "properties" with
                     | some mp => jsSpreadEntries mp
                     | none => [])
                    (match getProp processed "properties" with
                     | some pp => jsSpreadEntries pp
                     | none => [])))
              else merged
            let allRequired := acc.2 ++
              (match getProp processed "required" with
               | some (.arr rs) => rs
               | _ => [])
            let merged :=
              if !optTruthy (objGet merged "type") &&
                  optTruthy (getProp processed "type") then
                objSet merged "type" ((getProp processed "type").getD .null)
              else merged
            let merged :=
              if optTruthy (getProp processed "description") &&
                  !optTruthy (objGet merged "description") then
                objSet merged "description"
                  ((getProp processed "description").getD .null)
              else merged
            (merged, allRequired)
          let acc := subs.foldl step ([], [])
          let rest := objDelete r0 "allOf"
          let r := spreadMerge rest acc.1
          if acc.2.length > 0 then
            let base := match objGet r "required" with
              | some v => if truthy v then jsIterItems v else []
              | none => []
            objSet r "required" (.arr (dedupJson (base ++ acc.2)))
          else r
        else r0
      | _ => r0
    .obj (mapContainerValues (mergeAllOf fuel) r1)
  | _ + 1, x => x

/-- `scoreSchemaOption`: score plus the `typeName` value. -/
def scoreSchemaOption (schema : Json) : Nat × Json :=
  if !truthy schema || !isContainer schema then (0, .str "unknown")
  else
    let type := getProp schema "type"
    let typeIs := fun (s : String) =>
      match type with
      | some (.str t) => t == s
      | _ => false
    if typeIs "object" || optTruthy (getProp schema "properties") then
      (3, .str "object")
    else if typeIs "array" || optTruthy (getProp schema "items") then
      (2, .str "array")
    else if optTruthy type && !typeIs "null" then
      (1, type.getD .null)
    else
      (0, if optTruthy type then type.getD .null else .str "null")

/-- `tryMergeEnumFromUnion` (with its early returns expressed as recursion). -/
def tryMergeEnumGo (fuel : Nat) : List Json → List String → Option (List String)
  | [], acc => some acc
  | opt :: rest, acc =>
    if !truthy opt || !isContainer opt then none
    else
      match getProp opt "const" with
      | some c => tryMergeEnumGo fuel rest (acc ++ [jsToString fuel c])
      | none =>
        let viaEnum := match getProp opt "enum" with
          | some (.arr es) => if es.length ≥ 1 then some es else none
          | _ => none
        match viaEnum with
        | some es => tryMergeEnumGo fuel rest (acc ++ es.map (jsToString fuel))
        | none =>
          if optTruthy (getProp opt "properties") ||
              optTruthy (getProp opt "items") ||
              optTruthy (getProp opt "anyOf") ||
              optTruthy (getProp opt "oneOf") ||
              optTruthy (getProp opt "allOf") then none
          else if optTruthy (getProp opt "type") &&
              !optTruthy (getProp opt "enum") then none
          else tryMergeEnumGo fuel rest acc

def tryMergeEnumFromUnion (fuel : Nat) (options : List Json) :
    Option (List String) :=
  if options.length == 0 then none
  else
    match tryMergeEnumGo fuel options [] with
    | some acc => if acc.length > 0 then some acc else none
    | none => none

/-- First index attaining the maximal score (strict `>` keeps the first). -/
def pickBestIdx (scores : List Nat) : Nat :=
  (scores.foldl
    (fun (acc : Nat × Nat × Int) s =>
      if (s : Int) > acc.2.2 then (acc.1 + 1, acc.1, (s : Int))
      else (acc.1 + 1, acc.2.1, acc.2.2))
    (0, 0, -1)).2.1

/-- Phase 2b `flattenAnyOfOneOf`: handling of one union keyword. -/
def processUnionKey (flatten : Json → Json) (fuel : Nat)
    (r : List (String × Json)) (unionKey : String) : List (String × Json) :=
  match objGet r unionKey with
  | some (.arr options) =>
    if options.length > 0 then
      let parentDesc := match objGet r "description" with
        | some (.str s) => s
        | _ => ""
      match tryMergeEnumFromUnion fuel options with
      | some mergedEnum =>
        let rest := objDelete r unionKey
        let r1 := objSet (objSet rest "type" (.str "string")) "enum"
          (.arr (mergedEnum.map .str))
        if parentDesc ≠ "" then objSet r1 "description" (.str parentDesc)
        else r1
      | none =>
        let scored := options.map scoreSchemaOption
        let allTypes := (scored.map (·.2)).filter truthy
        let bestIdx := pickBestIdx (scored.map (·.1))
        let selected0 := flatten (options.getD bestIdx .null)
        let selected1 := if truthy selected0 then selected0
          else .obj [("type", .str "string")]
        let childDesc := match getProp selected1 "description" with
          | some (.str s) => s
          | _ => ""
        let selected2 :=
          if parentDesc ≠ "" then
            if childDesc ≠ "" && childDesc ≠ parentDesc then
              .obj (objSet (jsSpreadEntries selected1) "description"
                (.str (parentDesc ++ " (" ++ childDesc ++ ")")))
            else if childDesc == "" then
              .obj (objSet (jsSpreadEntries selected1) "description"
                (.str parentDesc))
            else selected1
          else selected1
        let selected3 :=
          if allTypes.length > 1 then
            appendDescriptionHintJ selected2
              ("Accepts: " ++ jsJoin fuel " | " (dedupJson allTypes))
          else selected2
        let rest := objDelete (objDelete r unionKey) "description"
        spreadMerge rest (jsSpreadEntries selected3)
    else r
  | _ => r

/-- Phase 2b `flattenAnyOfOneOf`. -/
def flattenAnyOfOneOf : Nat → Json → Json
  | 0, _ => .null
  | fuel + 1, .arr l => .arr (l.map (flattenAnyOfOneOf fuel))
  | fuel + 1, .obj l =>
    let r0 := canonEntries l
    let r1 := processUnionKey (flattenAnyOfOneOf fuel) fuel r0 "anyOf"
    let r2 := processUnionKey (flattenAnyOfOneOf fuel) fuel r1 "oneOf"
    .obj (mapContainerValues (flattenAnyOfOneOf fuel) r2)
  | _ + 1, x => x

/-- Phase 2c `flattenTypeArrays`. -/
def flattenTypeArrays : Nat → Json → Json
  | 0, _ => .null
  | fuel + 1, .arr l => .arr (l.map (flattenTypeArrays fuel))
  | fuel + 1, .obj l =>
    let r0 := canonEntries l
    let r1 := match objGet r0 "type" with
      | some (.arr types) =>
        let hasNull := types.any (fun t => match t with
          | .str s => s == "null"
          | _ => false)
        let nonNullTypes := types.filter (fun t =>
          (match t with | .str s => s ≠ "null" | _ => true) && truthy t)
        let r := objSet r0 "type"
          (match nonNullTypes with
           | t :: _ => t
           | [] => .str "string")
        let r := if nonNullTypes.length > 1 then
            appendDescriptionHint r ("Accepts: " ++ jsJoin fuel " | " nonNullTypes)
          else r
        if hasNull then appendDescriptionHint r "nullable" else r
      | _ => r0
    .obj (mapContainerValues (flattenTypeArrays fuel) r1)
  | _ + 1, x => x

/-- Phase 3a `removeUnsupportedKeywords`.  The `insideProperties` flag is
carried for fidelity; as in the source, every recursive call passes `false`
(property names are protected because the `properties` map is rebuilt
name-by-name, not filtered). -/
def removeUnsupportedKeywords : Nat → Bool → Json → Json
  | 0, _, _ => .null
  | fuel + 1, _, .arr l => .arr (l.map (removeUnsupportedKeywords fuel false))
  | fuel + 1, insideProperties, .obj l =>
    .obj ((canonEntries l).filterMap (fun p =>
      if !insideProperties && UNSUPPORTED_KEYWORDS.contains p.1 then none
      else if isContainer p.2 then
        if p.1 == "properties" then
          some (p.1, .obj ((jsEntriesOf p.2).map
            (fun q => (q.1, removeUnsupportedKeywords fuel false q.2))))
        else some (p.1, removeUnsupportedKeywords fuel false p.2)
      else some p))
  | _ + 1, _, x => x

/-- Phase 3b `cleanupRequiredFields`. -/
def cleanupRequiredFields : Nat → Json → Json
  | 0, _ => .null
  | fuel + 1, .arr l => .arr (l.map (cleanupRequiredFields fuel))
  | fuel + 1, .obj l =>
    let r0 := canonEntries l
    let r1 := match objGet r0 "required", objGet r0 "properties" with
      | some (.arr reqs), some props =>
        if truthy props && isContainer props then
          let validRequired := reqs.filter
            (fun req => jsHasOwn props (jsToString fuel req))
          if validRequired.length == 0 then objDelete r0 "required"
          else if validRequired.length != reqs.length then
            objSet r0 "required" (.arr validRequired)
          else r0
        else r0
      | _, _ => r0
    .obj (mapContainerValues (cleanupRequiredFields fuel) r1)
  | _ + 1, x => x

/-- Phase 4 `addEmptySchemaPlaceholder`: the synthetic property map. -/
def placeholderProperties : Json :=
  .obj [(EMPTY_SCHEMA_PLACEHOLDER_NAME,
    .obj [("type", .str "BOOLEAN"),
          ("description", .str EMPTY_SCHEMA_PLACEHOLDER_DESCRIPTION)])]

/-- Phase 4 `addEmptySchemaPlaceholder`. -/
def addEmptySchemaPlaceholder : Nat → Json → Json
  | 0, _ => .null
  | fuel + 1, .arr l => .arr (l.map (addEmptySchemaPlaceholder fuel))
  | fuel + 1, .obj l =>
    let r0 := canonEntries l
    let isObjectType := match objGet r0 "type" with
      | some (.str t) => t == "object" || t == "OBJECT"
      | _ => false
    let hasProperties := match objGet r0 "properties" with
      | some p => truthy p && isContainer p && (jsKeysOf p).length > 0
      | none => false
    let r1 := if isObjectType && !hasProperties then
        objSet (objSet r0 "properties" placeholderProperties) "required"
          (.arr [.str EMPTY_SCHEMA_PLACEHOLDER_NAME])
      else r0
    .obj (mapContainerValues (addEmptySchemaPlaceholder fuel) r1)
  | _ + 1, x => x

/-- `Object.keys(schema.properties)` collected for the `required` filter of
`toGeminiFormat`. -/
def toGeminiPropNames (lc : List (String × Json)) : List String :=
  match objGet lc "properties" with
  | some p => if truthy p && isContainer p then jsKeysOf p else []
  | none => []

/-- The `required` filter of `toGeminiFormat`: keep string entries naming a
collected property. -/
def requiredFilterPred (propertyNames : List String) (r : Json) : Bool :=
  match r with
  | .str s => propertyNames.contains s
  | _ => false

/-- One entry of the `toGeminiFormat` rebuild loop; `rec` is the recursive
call at the remaining fuel. -/
def toGeminiEntry (rec : Json → Json) (propertyNames : List String)
    (p : String × Json) : Option (String × Json) :=
  let k := p.1
  let v := p.2
  if k == "type" then
    match v with
    | .str t => some (k, Json.str (upperS t))
    | _ => some (k, v)
  else if k == "properties" && isContainer v then
    some (k, Json.obj ((jsEntriesOf v).map (fun q => (q.1, rec q.2))))
  else if k == "items" && typeofObject v then
    some (k, rec v)
  else if (k == "anyOf" || k == "oneOf" || k == "allOf") && v.isArr then
    match v with
    | .arr es => some (k, Json.arr (es.map rec))
    | _ => some (k, v)
  else if k == "required" && v.isArr then
    match v with
    | .arr reqs =>
      if propertyNames.length > 0 then
        let validRequired := reqs.filter (requiredFilterPred propertyNames)
        if validRequired.length > 0 then some (k, Json.arr validRequired)
        else none
      else some (k, v)
    | _ => some (k, v)
  else some (k, v)

/-- The trailing fixup of `toGeminiFormat`: give every ARRAY-typed schema an
items node when it lacks a truthy one. -/
def ensureArrayItems (entries : List (String × Json)) : List (String × Json) :=
  let typeIsArray := match objGet entries "type" with
    | some (.str t) => t == "ARRAY"
    | _ => false
  if typeIsArray && !optTruthy (objGet entries "items") then
    objSet entries "items" (.obj [("type", .str "STRING")])
  else entries

/-- Phase 5 `toGeminiFormat`. -/
def toGeminiFormat : Nat → Json → Json
  | 0, _ => .null
  | fuel + 1, .arr l => .arr (l.map (toGeminiFormat fuel))
  | fuel + 1, .obj l =>
    .obj (ensureArrayItems ((canonEntries l).filterMap
      (toGeminiEntry (toGeminiFormat fuel) (toGeminiPropNames (canonEntries l)))))
  | _ + 1, x => x

/-- Fuel supplied by the entry points.  The JS recursion depth on any
reachable schema is tiny; this constant is far beyond anything the pipeline
can consume on inputs of practical size. -/
def PIPELINE_FUEL : Nat := 1000000

/-- `cleanSchema`: the main entry point. -/
def cleanSchema (schema : Json) : Json :=
  if !truthy schema || !isContainer schema then .obj [("type", .str "STRING")]
  else
    let n := PIPELINE_FUEL
    let r := convertRefsToHints n schema
    let r := convertConstToEnum n r
    let r := addEnumHints n r
    let r := addAdditionalPropertiesHints n r
    let r := moveConstraintsToDescription n r
    let r := mergeAllOf n r
    let r := flattenAnyOfOneOf n r
    let r := flattenTypeArrays n r
    let r := removeUnsupportedKeywords n false r
    let r := cleanupRequiredFields n r
    let r := addEmptySchemaPlaceholder n r
    toGeminiFormat n r

/-!
## JSON.parse / JSON.stringify

A fueled recursive-descent model of `JSON.parse` over the standard JSON
grammar (the fuel supplied exceeds what any input of the given length can
consume) and a matching `JSON.stringify`.
-/

def jsonWs (c : Char) : Bool :=
  c == ' ' || c == '\t' || c == '\n' || c == '\r'

def skipWs (cs : List Char) : List Char := cs.dropWhile jsonWs

def hexVal (c : Char) : Option Nat :=
  let n := c.toNat
  if 48 ≤ n ∧ n ≤ 57 then some (n - 48)
  else if 97 ≤ n ∧ n ≤ 102 then some (n - 87)
  else if 65 ≤ n ∧ n ≤ 70 then some (n - 55)
  else none

def parseJsonStr : Nat → List Char → List Char → Option (String × List Char)
  | 0, _, _ => none
  | _ + 1, _, [] => none
  | fuel + 1, acc, c :: rest =>
    if c == '"' then some (String.mk acc.reverse, rest)
    else if c == '\\' then
      match rest with
      | [] => none
      | e :: rest2 =>
        if e == '"' then parseJsonStr fuel ('"' :: acc) rest2
        else if e == '\\' then parseJsonStr fuel ('\\' :: acc) rest2
        else if e == '/' then parseJsonStr fuel ('/' :: acc) rest2
        else if e == 'b' then parseJsonStr fuel ('\x08' :: acc) rest2
        else if e == 'f' then parseJsonStr fuel ('\x0c' :: acc) rest2
        else if e == 'n' then parseJsonStr fuel ('\n' :: acc) rest2
        else if e == 'r' then parseJsonStr fuel ('\r' :: acc) rest2
        else if e == 't' then parseJsonStr fuel ('\t' :: acc) rest2
        else if e == 'u' then
          match rest2 with
          | h1 :: h2 :: h3 :: h4 :: rest3 =>
            match hexVal h1, hexVal h2, hexVal h3, hexVal h4 with
            | some a, some b, some c3, some d =>
              parseJsonStr fuel
                (Char.ofNat (((a * 16 + b) * 16 + c3) * 16 + d) :: acc) rest3
            | _, _, _, _ => none
          | _ => none
        else none
    else if c.toNat < 32 then none
    else parseJsonStr fuel (c :: acc) rest

def takeDigits (cs : List Char) : List Char × List Char :=
  (cs.takeWhile Char.isDigit, cs.dropWhile Char.isDigit)

def digitsToNat (ds : List Char) : Nat :=
  ds.foldl (fun n c => n * 10 + (c.toNat - '0'.toNat)) 0

/-- JSON number grammar: `-? int frac? exp?`, no leading zeros. -/
def parseJsonNum (cs : List Char) : Option (Json × List Char) :=
  let (neg, cs1) := match cs with
    | '-' :: rest => (true, rest)
    | _ => (false, cs)
  let (intDs, cs2) := takeDigits cs1
  if intDs.isEmpty then none
  else if intDs.length > 1 && intDs.headD '0' == '0' then none
  else
    let (fracDs, cs3) := match cs2 with
      | '.' :: rest =>
        let (ds, r) := takeDigits rest
        (ds, r)
      | _ => ([], cs2)
    if (match cs2 with | '.' :: _ => fracDs.isEmpty | _ => false) then none
    else
      let parseExp := fun (tail : List Char) =>
        let (eneg, t1) := match tail with
          | '+' :: r => (false, r)
          | '-' :: r => (true, r)
          | _ => (false, tail)
        let (eds, t2) := takeDigits t1
        if eds.isEmpty then none
        else some ((eneg, digitsToNat eds), t2)
      let expRes : Option ((Bool × Nat) × List Char) := match cs3 with
        | 'e' :: rest => parseExp rest
        | 'E' :: rest => parseExp rest
        | _ => some ((false, 0), cs3)
      match expRes with
      | none => none
      | some ((eneg, e), cs4) =>
        let mantissa : Int := Int.ofNat (digitsToNat (intDs ++ fracDs))
        let mantissa := if neg then -mantissa else mantissa
        let q0 : Rat := (mantissa : Rat) / ((10 : Rat) ^ fracDs.length)
        let q := if eneg then q0 / ((10 : Rat) ^ e) else q0 * ((10 : Rat) ^ e)
        some (.num q, cs4)

mutual

def parseJsonVal : Nat → List Char → Option (Json × List Char)
  | 0, _ => none
  | fuel + 1, cs =>
    match skipWs cs with
    | [] => none
    | c :: rest =>
      if c == 'n' then
        match rest with
        | 'u' :: 'l' :: 'l' :: r => some (.null, r)
        | _ => none
      else if c == 't' then
        match rest with
        | 'r' :: 'u' :: 'e' :: r => some (.bool true, r)
        | _ => none
      else if c == 'f' then
        match rest with
        | 'a' :: 'l' :: 's' :: 'e' :: r => some (.bool false, r)
        | _ => none
      else if c == '"' then
        match parseJsonStr fuel [] rest with
        | some (s, r) => some (.str s, r)
        | none => none
      else if c == '[' then
        match skipWs rest with
        | ']' :: r => some (.arr [], r)
        | cs2 => parseJsonArrItems fuel cs2 []
      else if c == '{' then
        match skipWs rest with
        | '}' :: r => some (.obj [], r)
        | cs2 => parseJsonObjItems fuel cs2 []
      else if c == '-' || c.isDigit then parseJsonNum (c :: rest)
      else none

def parseJsonArrItems (fuel : Nat) (cs : List Char) (acc : List Json) :
    Option (Json × List Char) :=
  match fuel with
  | 0 => none
  | fuel + 1 =>
    match parseJsonVal fuel cs with
    | none => none
    | some (v, rest) =>
      match skipWs rest with
      | ',' :: r => parseJsonArrItems fuel r (acc ++ [v])
      | ']' :: r => some (.arr (acc ++ [v]), r)
      | _ => none

def parseJsonObjItems (fuel : Nat) (cs : List Char)
    (acc : List (String × Json)) : Option (Json × List Char) :=
  match fuel with
  | 0 => none
  | fuel + 1 =>
    match skipWs cs with
    | '"' :: rest =>
      match parseJsonStr fuel [] rest with
      | none => none
      | some (k, r1) =>
        match skipWs r1 with
        | ':' :: r2 =>
          match parseJsonVal fuel r2 with
          | none => none
          | some (v, r3) =>
            -- duplicate keys: later value wins, first position kept
            let acc := objSet acc k v
            match skipWs r3 with
            | ',' :: r4 => parseJsonObjItems fuel r4 acc
            | '}' :: r4 => some (.obj acc, r4)
            | _ => none
        | _ => none
    | _ => none

end

/-- `JSON.parse`, returning `none` where JS throws a `SyntaxError`. -/
def jsonParse (s : String) : Option Json :=
  match parseJsonVal ((s.data.length + 4) * 4) s.data with
  | some (v, rest) => if (skipWs rest).isEmpty then some v else none
  | none => none

def escapeJsonChar (c : Char) : List Char :=
  if c == '"' then ['\\', '"']
  else if c == '\\' then ['\\', '\\']
  else if c == '\n' then ['\\', 'n']
  else if c == '\r' then ['\\', 'r']
  else if c == '\t' then ['\\', 't']
  else if c == '\x08' then ['\\', 'b']
  else if c == '\x0c' then ['\\', 'f']
  else [c]

def quoteJson (s : String) : String :=
  ⟨'"' :: (s.data.flatMap escapeJsonChar) ++ ['"']⟩

/-- `JSON.stringify` (no indentation, as called by the sources). -/
def jsonStringify : Nat → Json → String
  | 0, _ => ""
  | _ + 1, .null => "null"
  | _ + 1, .bool b => if b then "true" else "false"
  | _ + 1, .num q => ratToString q
  | _ + 1, .str s => quoteJson s
  | fuel + 1, .arr l =>
    "[" ++ String.intercalate "," (l.map (jsonStringify fuel)) ++ "]"
  | fuel + 1, .obj l =>
    "\x7b" ++ String.intercalate ","
      ((canonEntries l).map (fun p => quoteJson p.1 ++ ":" ++ jsonStringify fuel p.2))
      ++ "\x7d"

/-!
## Transform types (src/transform/types.ts)
-/

inductive OpenAIRole where
  | system | user | assistant | tool
deriving Repr, DecidableEq

/-- One element of a multi-part message content.  `image_url` payloads are
never read by the transformer (only the `type` tag is inspected), so the
field is not carried. -/
structure OpenAIContentPart where
  type : String
  text : Option String
deriving Repr, DecidableEq

/-- `string | OpenAIContentPart[] | null`. -/
inductive MsgContent where
  | str (s : String)
  | parts (l : List OpenAIContentPart)
  | nullc
deriving Repr, DecidableEq

structure OpenAIFunctionCall where
  name : String
  arguments : String
deriving Repr, DecidableEq

structure OpenAIToolCall where
  id : String
  type : String
  function : OpenAIFunctionCall
deriving Repr, DecidableEq

structure OpenAIMessage where
  role : OpenAIRole
  content : MsgContent
  name : Option String := none
  tool_calls : Option (List OpenAIToolCall) := none
  tool_call_id : Option String := none
deriving Repr, DecidableEq

structure OpenAIToolFunction where
  name : String
  description : Option String := none
  parameters : Option Json := none
deriving Repr

structure OpenAITool where
  type : String
  function : OpenAIToolFunction
deriving Repr

inductive OpenAIToolChoice where
  | auto | none | required
  | function (name : String)
deriving Repr, DecidableEq

inductive StopSpec where
  | one (s : String)
  | many (l : List String)
deriving Repr, DecidableEq

structure OpenAIRequest where
  model : String
  messages : List OpenAIMessage
  tools : Option (List OpenAITool) := none
  tool_choice : Option OpenAIToolChoice := none
  stream : Option Bool := none
  max_tokens : Option Int := none
  temperature : Option Rat := none
  top_p : Option Rat := none
  stop : Option StopSpec := none
deriving Repr

inductive AntigravityRole where
  | user | model | system
deriving Repr, DecidableEq

/-- Parts built by the request transformer (`{text}`, `{functionCall}`,
`{functionResponse}`). -/
inductive AntigravityPart where
  | text (s : String)
  | functionCall (name : String) (args : Json)
  | functionResponse (name : String) (response : Json)
deriving Repr

structure AntigravityContent where
  role : AntigravityRole
  parts : List AntigravityPart
deriving Repr

structure FunctionCallingConfig where
  mode : String
  allowedFunctionNames : Option (List String) := none
deriving Repr, DecidableEq

structure ThinkingConfig where
  includeThoughts : Bool
  thinkingLevel : Option String := none
  thinkingBudget : Option Int := none
deriving Repr, DecidableEq

structure GenerationConfig where
  temperature : Option Rat := none
  maxOutputTokens : Option Int := none
  topP : Option Rat := none
  stopSequences : Option (List String) := none
  candidateCount : Nat := 1
  thinkingConfig : Option ThinkingConfig := none
deriving Repr, DecidableEq

structure FunctionDeclaration where
  name : String
  description : Option String
  parameters : Json
deriving Repr

structure AntigravityTool where
  functionDeclarations : List FunctionDeclaration
deriving Repr

/-- `AntigravityRequest`.  `systemInstruction` models `{parts: [...]}` by
its part list; `toolConfig` models `{functionCallingConfig: ...}` by the
inner config.  `generationConfig` is assigned unconditionally before the
transformer returns, so it is carried as a plain field. -/
structure AntigravityRequest where
  contents : List AntigravityContent
  systemInstruction : Option (List AntigravityPart) := none
  tools : Option (List AntigravityTool) := none
  toolConfig : Option FunctionCallingConfig := none
  generationConfig : GenerationConfig := {}
deriving Repr

/-!
## Request transformer (src/transform/openai-to-gemini.ts)
-/

def extractText : MsgContent → String
  | .nullc => ""
  | .str s => s
  | .parts l => String.intercalate "\n" (l.map (fun p => p.text.getD ""))

/-- Runtime JSON shape of a content part, for the tool-response fallback
that wraps non-string content. -/
def contentPartToJson (p : OpenAIContentPart) : Json :=
  .obj ([("type", Json.str p.type)] ++
    (match p.text with
     | some t => [("text", Json.str t)]
     | none => []))

/-- The text parts of a message (`if (msg.content)` block). -/
def contentParts (msg : OpenAIMessage) : List AntigravityPart :=
  match msg.content with
  | .str s => if s ≠ "" then [.text s] else []
  | .parts l => l.filterMap (fun p =>
      if p.type == "text" then
        match p.text with
        | some t => if t ≠ "" then some (.text t) else none
        | none => none
      else none)
  | .nullc => []

/-- The function-call parts of an assistant message. -/
def toolCallParts (msg : OpenAIMessage) : List AntigravityPart :=
  if msg.role == .assistant then
    match msg.tool_calls with
    | some calls => calls.filterMap (fun call =>
        if call.type == "function" then
          some (match jsonParse call.function.arguments with
            | some args => AntigravityPart.functionCall call.function.name args
            | none => AntigravityPart.functionCall call.function.name (.obj []))
        else none)
    | none => []
  else []

def transformMessage (msg : OpenAIMessage) : Option AntigravityContent :=
  let parts := contentParts msg ++ toolCallParts msg
  if msg.role == .tool &&
      (match msg.tool_call_id with | some tid => tid ≠ "" | none => false) then
    let name := match msg.name with
      | some n => if n ≠ "" then n else "unknown_tool"
      | none => "unknown_tool"
    let responseObj : Json := match msg.content with
      | .str s =>
        match jsonParse s with
        | some j => j
        | none => .obj [("content", .str s)]
      | .parts l => .obj [("content", .arr (l.map contentPartToJson))]
      | .nullc => .obj [("content", .null)]
    some { role := .user,
           parts := parts ++ [.functionResponse name responseObj] }
  else
    let role : AntigravityRole := match msg.role with
      | .assistant => .model
      | .system => .system
      | _ => .user
    if parts.isEmpty then none else some { role := role, parts := parts }

def transformTools (tools : List OpenAITool) : List AntigravityTool :=
  let declarations := tools.filterMap (fun tool =>
    if tool.type != "function" then none
    else some { name := tool.function.name
                description := tool.function.description
                parameters := cleanSchema (tool.function.parameters.getD .null)
                : FunctionDeclaration })
  if declarations.isEmpty then [] else [{ functionDeclarations := declarations }]

/-- One step of the content loop: push the node, or merge its parts into the
previous node when the roles coincide.  The accumulator is kept reversed
(head = most recently appended node). -/
def appendMerged (acc : List AntigravityContent) (c : AntigravityContent) :
    List AntigravityContent :=
  match acc with
  | last :: others =>
    if last.role == c.role then
      { last with parts := last.parts ++ c.parts } :: others
    else c :: last :: others
  | [] => [c]

def buildContentsRev (msgs : List OpenAIMessage)
    (acc : List AntigravityContent) : List AntigravityContent :=
  match msgs with
  | [] => acc
  | m :: rest =>
    if m.role == .system then buildContentsRev rest acc
    else
      match transformMessage m with
      | some c => buildContentsRev rest (appendMerged acc c)
      | none => buildContentsRev rest acc

def transformRequest (request : OpenAIRequest) : AntigravityRequest :=
  let systemInstruction :=
    match request.messages.find? (fun m => m.role == .system) with
    | some m => some [AntigravityPart.text (extractText m.content)]
    | none => none
  let contents := (buildContentsRev request.messages []).reverse
  let tools := match request.tools with
    | some ts => if ts.length > 0 then some (transformTools ts) else none
    | none => none
  let toolConfig : Option FunctionCallingConfig := match request.tool_choice with
    | some .auto => some { mode := "AUTO" }
    | some .none => some { mode := "NONE" }
    | some .required => some { mode := "ANY" }
    | some (.function name) => some { mode := "ANY", allowedFunctionNames := some [name] }
    | none => none
  let stopSequences := match request.stop with
    | some (.many l) => some l
    | some (.one s) => if s ≠ "" then some [s] else none
    | none => none
  let baseConfig : GenerationConfig :=
    { temperature := request.temperature
      maxOutputTokens := request.max_tokens
      topP := request.top_p
      stopSequences := stopSequences
      candidateCount := 1
      thinkingConfig := none }
  let lowerModel := lowerS request.model
  let isThinkingModel := jsIncludes lowerModel "thinking" ||
    jsIncludes lowerModel "gemini-3" || jsIncludes lowerModel "opus"
  let isGemini3 := jsIncludes lowerModel "gemini-3"
  let isGemini25 := jsIncludes lowerModel "gemini-2.5"
  let generationConfig :=
    if isThinkingModel && baseConfig.thinkingConfig.isNone then
      let cfg :=
        if isGemini3 then
          { baseConfig with
            thinkingConfig := some { includeThoughts := true, thinkingLevel := some "medium" } }
        else if isGemini25 then
          { baseConfig with
            thinkingConfig := some { includeThoughts := true, thinkingBudget := some 16000 } }
        else
          { baseConfig with
            thinkingConfig := some { includeThoughts := true, thinkingBudget := some 16000 } }
      -- boost the token limit when absent or below 8192 (0 is falsy in JS,
      -- and 0 < 8192 already, so the falsy test adds nothing)
      let boost := match cfg.maxOutputTokens with
        | none => true
        | some v => v < 8192
      if boost then { cfg with maxOutputTokens := some 65535 } else cfg
    else baseConfig
  { contents := contents
    systemInstruction := systemInstruction
    tools := tools
    toolConfig := toolConfig
    generationConfig := generationConfig }

/-!
## SSE parser and streaming transformer (src/transform/streaming.ts)
-/

/-- A parsed SSE event.  The source casts its partial accumulator to the
event interface when the data field is set, so `data` is plain here and the
accumulator below keeps it optional. -/
structure SSEParsedEvent where
  event : Option String := none
  data : String
  id : Option String := none
deriving Repr, DecidableEq

structure SSEAccumulator where
  event : Option String := none
  data : Option String := none
  id : Option String := none
deriving Repr, DecidableEq

/-- `chunk.split(/\r?\n/)`: split on newlines, stripping one carriage return
at the end of every line that was terminated by a newline. -/
def stripTrailingCR (p : String) : String :=
  match p.data.getLast? with
  | some c => if c == '\r' then ⟨p.data.dropLast⟩ else p
  | none => p

def splitSSELines (s : String) : List String :=
  let pieces := splitOnChar '\n' s
  match pieces.reverse with
  | [] => []
  | lastPiece :: restRev =>
    (restRev.reverse.map stripTrailingCR) ++ [lastPiece]

/-- One line of the `parseSSEChunk` loop. -/
def parseSSELine (st : List SSEParsedEvent × SSEAccumulator) (line : String) :
    List SSEParsedEvent × SSEAccumulator :=
  let (events, currentEvent) := st
  if jsTrim line == "" then
    -- empty line dispatches the pending event when its data is truthy
    match currentEvent.data with
    | some d =>
      if d ≠ "" then
        (events ++ [{ event := currentEvent.event, data := d,
                      id := currentEvent.id }], {})
      else (events, {})
    | none => (events, {})
  else
    match splitListOn ':' line.data with
    | [_] => (events, currentEvent)      -- no colon: line ignored
    | [] => (events, currentEvent)
    | fieldCs :: valueParts =>
      let field := jsTrim ⟨fieldCs⟩
      let value := jsTrimStart ⟨(String.intercalate ":"
        (valueParts.map String.mk)).data⟩
      if field == "data" then
        let prior := match currentEvent.data with
          | some d => if d ≠ "" then d ++ "\n" else ""
          | none => ""
        (events, { currentEvent with data := some (prior ++ value) })
      else if field == "event" then
        (events, { currentEvent with event := some value })
      else if field == "id" then
        (events, { currentEvent with id := some value })
      else (events, currentEvent)

def parseSSEChunk (chunk : String) : List SSEParsedEvent :=
  let st := (splitSSELines chunk).foldl parseSSELine ([], {})
  -- trailing event without an empty line
  match st.2.data with
  | some d =>
    if d ≠ "" then
      st.1 ++ [{ event := st.2.event, data := d, id := st.2.id }]
    else st.1
  | none => st.1

/-- A tool-call delta inside a streaming chunk. -/
structure ToolCallDelta where
  index : Nat
  id : String
  type : String := "function"
  name : Json
  arguments : Option String
deriving Repr

/-- `delta` of a streaming chunk.  `content` carries the raw part value the
source copies (`part.text`), which the protocol makes a string. -/
structure ChunkDelta where
  role : Option String := none
  content : Option Json := none
  tool_calls : Option (List ToolCallDelta) := none
deriving Repr

structure ChunkChoice where
  index : Nat := 0
  delta : ChunkDelta
  finish_reason : Option String := none
deriving Repr

/-- A public streaming chunk (`object` is the constant
`"chat.completion.chunk"` and is not carried). -/
structure OpenAIStreamChunk where
  id : String
  created : Nat
  model : String
  choices : List ChunkChoice
deriving Repr

structure TransformState where
  id : String
  created : Nat
  model : String
  hasEmittedRole : Bool
  toolCallIndex : Nat
  lastThoughtSignature : Option String := none
deriving Repr

/-- `createTransformState`; the `Date.now()` reads are passed in as `now`. -/
def createTransformState (now : Nat) (model : String) : TransformState :=
  { id := "chatcmpl-" ++ toString now
    created := now / 1000
    model := model
    hasEmittedRole := false
    toolCallIndex := 0 }

/-- The streaming `mapFinishReason` (returns `null` on unmapped reasons). -/
def streamMapFinishReason (reason : String) : Option String :=
  if reason == "STOP" then some "stop"
  else if reason == "MAX_TOKENS" then some "length"
  else if reason == "SAFETY" then some "content_filter"
  else if reason == "RECITATION" then some "content_filter"
  else if reason == "OTHER" then some "stop"
  else none

/-- `for (const part of value)`: arrays iterate their elements and strings
their characters; other truthy values are not iterable and make the JS
`for..of` throw, which the total model renders as an empty iteration (the
call then contributes no part chunks, like the aborted JS call delivers no
chunk list at all). -/
def jsForOfItems : Json → List Json
  | .arr l => l
  | .str s => s.data.map (fun c => Json.str (String.mk [c]))
  | _ => []

/-- Processing of one candidate part: chunks emitted plus state update. -/
def processPart (st : TransformState × List OpenAIStreamChunk) (now : Nat)
    (part : Json) : TransformState × List OpenAIStreamChunk :=
  let (state, chunks) := st
  let chunks :=
    match getProp part "text" with
    | some t =>
      if truthy t then
        chunks ++ [{ id := state.id, created := state.created,
                     model := state.model,
                     choices := [{ delta := { content := some t } }] }]
      else chunks
    | none => chunks
  let state :=
    match getProp part "thoughtSignature" with
    | some sig =>
      if truthy sig then
        { state with
          lastThoughtSignature := some (jsToString PIPELINE_FUEL sig) }
      else state
    | none => state
  match getProp part "functionCall" with
  | some fc =>
    if truthy fc then
      let chunk : OpenAIStreamChunk :=
        { id := state.id, created := state.created, model := state.model,
          choices := [{ delta := { tool_calls := some [{
            index := state.toolCallIndex
            id := "call_" ++ toString now ++ "_" ++ toString state.toolCallIndex
            name := (getProp fc "name").getD .null
            arguments := (getProp fc "args").map
              (jsonStringify PIPELINE_FUEL) }] } }] }
      ({ state with toolCallIndex := state.toolCallIndex + 1 },
       chunks ++ [chunk])
    else (state, chunks)
  | none => (state, chunks)

/-- `transformAntigravityEvent`.  The source mutates `state`; the model
returns the chunks together with the updated state.  `now` stands for the
`Date.now()` read when a tool-call id is synthesized. -/
def transformAntigravityEvent (now : Nat) (event : SSEParsedEvent)
    (state : TransformState) : List OpenAIStreamChunk × TransformState :=
  if event.data == "" || event.data == "[DONE]" then ([], state)
  else
    match jsonParse event.data with
    | none => ([], state)
    | some payload =>
      let inner := match getProp payload "response" with
        | some r => if truthy r then r else payload
        | none => payload
      let candidate := match getProp inner "candidates" with
        | some cs => getIndex cs 0
        | none => none
      match candidate with
      | none => ([], state)
      | some cand =>
        if !truthy cand then ([], state)
        else
          let emit := !state.hasEmittedRole
          let chunks0 : List OpenAIStreamChunk :=
            if emit then
              [{ id := state.id, created := state.created,
                 model := state.model,
                 choices := [{ delta := { role := some "assistant",
                                          content := some (.str "") } }] }]
            else []
          let state := if emit then { state with hasEmittedRole := true }
            else state
          let partsOpt := match getProp cand "content" with
            | some content =>
              if truthy content then
                match getProp content "parts" with
                | some parts => if truthy parts then some parts else none
                | none => none
              else none
            | none => none
          let folded := match partsOpt with
            | some parts =>
              (jsForOfItems parts).foldl (fun acc p => processPart acc now p)
                (state, [])
            | none => (state, [])
          let chunks2 := match getProp cand "finishReason" with
            | some fr =>
              if truthy fr then
                [({ id := folded.1.id, created := folded.1.created,
                    model := folded.1.model,
                    choices := [{ delta := {},
                                  finish_reason := match fr with
                                    | .str s => streamMapFinishReason s
                                    | _ => none }] } : OpenAIStreamChunk)]
              else []
            | none => []
          (chunks0 ++ folded.2 ++ chunks2, folded.1)

/-!
## Single-shot response transformer (src/transform/gemini-to-openai.ts)
-/

/-- The single-shot `mapFinishReason`; the candidate chain can hand it
`undefined`, modelled by `none`, and the switch default returns `"stop"`. -/
def mapFinishReason (reason : Option String) : String :=
  match reason with
  | some r =>
    if r == "STOP" then "stop"
    else if r == "MAX_TOKENS" then "length"
    else if r == "SAFETY" then "content_filter"
    else if r == "RECITATION" then "content_filter"
    else if r == "OTHER" then "stop"
    else "stop"
  | none => "stop"

structure ResponseToolCall where
  id : String
  type : String := "function"
  name : Json
  arguments : Option String
deriving Repr

structure ResponseMessage where
  role : String := "assistant"
  content : Option Json
  tool_calls : Option (List ResponseToolCall)
deriving Repr

structure ResponseChoice where
  index : Nat := 0
  message : ResponseMessage
  finish_reason : String
deriving Repr

structure OpenAIResponse where
  id : String
  created : Nat
  model : String
  choices : List ResponseChoice
  promptTokens : Nat := 0
  completionTokens : Nat := 0
  totalTokens : Nat := 0
deriving Repr

/-- `transformResponse`; `now` stands for the `Date.now()` reads. -/
def transformResponse (now : Nat) (antigravityResponse : Json)
    (model : String) : OpenAIResponse :=
  let inner := match getProp antigravityResponse "response" with
    | some r => if truthy r then r else antigravityResponse
    | none => antigravityResponse
  let candidate := match getProp inner "candidates" with
    | some cs => getIndex cs 0
    | none => none
  let parts := match candidate with
    | some cand =>
      match getProp cand "content" with
      | some content =>
        match getProp content "parts" with
        | some ps => if truthy ps then ps else .arr []
        | none => .arr []
      | none => .arr []
    | none => .arr []
  let step := fun (acc : String × List ResponseToolCall) (part : Json) =>
    let (content, toolCalls) := acc
    let content := match getProp part "text" with
      | some t => if truthy t then content ++ jsToString PIPELINE_FUEL t
                  else content
      | none => content
    match getProp part "functionCall" with
    | some fc =>
      if truthy fc then
        (content, toolCalls ++ [{
          id := "call_" ++ toString now ++ "_" ++ toString toolCalls.length
          name := (getProp fc "name").getD .null
          arguments := (getProp fc "args").map (jsonStringify PIPELINE_FUEL) }])
      else (content, toolCalls)
    | none => (content, toolCalls)
  let (content, toolCalls) := (jsForOfItems parts).foldl step ("", [])
  let finishReason := mapFinishReason (match candidate with
    | some cand =>
      match getProp cand "finishReason" with
      | some (.str s) => some s
      | _ => none
    | none => none)
  let message : ResponseMessage :=
    { content := if content ≠ "" then some (.str content) else none
      tool_calls := if toolCalls.length > 0 then some toolCalls else none }
  { id := "chatcmpl-" ++ toString now
    created := now / 1000
    model := model
    choices := [{ message := message, finish_reason := finishReason }] }

/-!
## Observation helpers for the streaming state machine
-/

/-- Runs `transformAntigravityEvent` over a sequence of events (with the
clock value observed at each call), threading the state as the caller does,
and concatenates the emitted chunks. -/
def runEvents : List (Nat × SSEParsedEvent) → TransformState →
    List OpenAIStreamChunk × TransformState
  | [], st => ([], st)
  | (now, e) :: rest, st =>
    let r := transformAntigravityEvent now e st
    let rr := runEvents rest r.2
    (r.1 ++ rr.1, rr.2)

/-- The role-preamble chunk: a delta announcing the assistant role with empty
content. -/
def isPreambleChunk (c : OpenAIStreamChunk) : Bool :=
  c.choices.any (fun ch =>
    ch.delta.role == some "assistant" &&
    (match ch.delta.content with
     | some (.str s) => s == ""
     | _ => false))

/-- A content-delta chunk (no role, some content). -/
def isContentChunk (c : OpenAIStreamChunk) : Bool :=
  c.choices.any (fun ch => ch.delta.role == none && ch.delta.content.isSome)

/-- A tool-call-delta chunk. -/
def isToolCallChunk (c : OpenAIStreamChunk) : Bool :=
  c.choices.any (fun ch => ch.delta.tool_calls.isSome)

/-- No chunk of `l` is a role preamble. -/
def PreambleFree (l : List OpenAIStreamChunk) : Prop :=
  ∀ d ∈ l, isPreambleChunk d = false

/-- The role-preamble chunk the transformer emits for a given state. -/
def preambleOf (st : TransformState) : OpenAIStreamChunk :=
  { id := st.id, created := st.created, model := st.model,
    choices := [{ delta := { role := some "assistant",
                             content := some (.str "") } }] }

/-- The preamble discipline on an emitted chunk sequence: at most one
preamble chunk, and no content or tool-call chunk ever precedes a
preamble. -/
def GoodOut (out : List OpenAIStreamChunk) : Prop :=
  (out.filter (fun c => isPreambleChunk c)).length ≤ 1 ∧
  ∀ l1 c l2, out = l1 ++ c :: l2 → isPreambleChunk c = true →
    ∀ d ∈ l1, isContentChunk d = false ∧ isToolCallChunk d = false

/-!
## Required-field invariant predicates (claim C7)
-/

/-- The claim as stated: at every node of the tree (descending through all
object entries and array elements), a `required` array may only hold strings
naming existing keys of that node's sibling `properties` map. -/
inductive OrigRequiredInv : Json → Prop where
  | prim (j : Json) : isContainer j = false → OrigRequiredInv j
  | arr (l : List Json) : (∀ x ∈ l, OrigRequiredInv x) →
      OrigRequiredInv (.arr l)
  | obj (l : List (String × Json)) :
      (∀ r, getProp (.obj l) "required" = some (.arr r) →
        ∀ e ∈ r, ∃ s props, e = .str s ∧
          getProp (.obj l) "properties" = some (.obj props) ∧
          s ∈ props.map (·.1)) →
      (∀ k v, (k, v) ∈ canonEntries l → OrigRequiredInv v) →
      OrigRequiredInv (.obj l)

/-- The provable invariant: at every schema position of the output (the
root, elements of array schemas, values of a properties map, an items value,
elements of anyOf/oneOf/allOf arrays), a node carrying a `required` array
next to an object-valued `properties` map with at least one key has a
non-empty `required` whose entries are all strings naming existing keys of
that map. -/
inductive InvSchema : Json → Prop where
  | prim (j : Json) : isContainer j = false → InvSchema j
  | arr (l : List Json) : (∀ x ∈ l, InvSchema x) → InvSchema (.arr l)
  | obj (l : List (String × Json)) :
      (∀ r props, getProp (.obj l) "required" = some (.arr r) →
        getProp (.obj l) "properties" = some (.obj props) →
        canonEntries props ≠ [] →
        r ≠ [] ∧ ∀ e ∈ r, ∃ s, e = .str s ∧ s ∈ props.map (·.1)) →
      (∀ props k v, getProp (.obj l) "properties" = some props →
        (k, v) ∈ jsEntriesOf props → InvSchema v) →
      (∀ it, getProp (.obj l) "items" = some it → InvSchema it) →
      (∀ uk, uk ∈ (["anyOf", "oneOf", "allOf"] : List String) →
        ∀ es, getProp (.obj l) uk = some (.arr es) →
        ∀ x ∈ es, InvSchema x) →
      InvSchema (.obj l)

/-- The terminator sentinel event. -/
def doneEvent : SSEParsedEvent := { data := "[DONE]" }

/-- An event whose payload holds one empty candidate. -/
def candidateOnlyEvent : SSEParsedEvent := { data := "\x7b\"candidates\":[\x7b\x7d]\x7d" }

/-!
## Concrete example inputs used by the theorems
-/

/-- A user chat message with plain string content. -/
def userMsg (s : String) : OpenAIMessage := { role := .user, content := .str s }

/-- A request carrying one non-function-typed tool. -/
def customToolReq : OpenAIRequest :=
  { model := "m", messages := [userMsg "hi"],
    tools := some [{ type := "custom", function := { name := "f" } }] }

def retrievalToolReq : OpenAIRequest :=
  { model := "m", messages := [],
    tools := some [{ type := "retrieval", function := { name := "f" } }] }

def gemini3ProReq : OpenAIRequest :=
  { model := "gemini-3-pro", messages := [userMsg "hi"] }

def gemini3ThinkingReq : OpenAIRequest :=
  { model := "gemini-3-pro-thinking", messages := [] }

def gpt4oReq : OpenAIRequest := { model := "gpt-4o", messages := [] }

/-- A request consisting of two user messages with string contents. -/
def twoUserReq (model s1 s2 : String) : OpenAIRequest :=
  { model := model, messages := [userMsg s1, userMsg s2] }

/-- A tool-role message carrying a tool-call id. -/
def mkToolMsg (s : String) (name : Option String) (tid : String)
    (tcs : Option (List OpenAIToolCall)) : OpenAIMessage :=
  { role := .tool, content := .str s, name := name, tool_calls := tcs,
    tool_call_id := some tid }

/-- A schema whose `required` array names a property missing from its
(absent) `properties` map, nested one level inside an array: material for
the required-invariant counterexample. -/
def requiredCounterexample : Json :=
  .arr [.obj [("required", .arr [.str "x"])]]

/-!
## Theorems
-/

set_option maxRecDepth 100000

/-- C8: `cleanSchema {anyOf:[{const:"a"},{const:"b"}]}` returns exactly
`{type:"STRING", enum:["a","b"]}`: a union whose branches all reduce to
constants collapses to a single string-typed enum schema. -/
theorem cleanSchema_anyOf_const_collapses :
    cleanSchema (.obj [("anyOf", .arr [.obj [("const", .str "a")],
                                       .obj [("const", .str "b")]])]) =
      .obj [("type", .str "STRING"), ("enum", .arr [.str "a", .str "b"])] :=
  rfl

/-- C1 counterexample: `cleanSchema` is not idempotent.  On the union of
constants, the first pass produces `{type:"STRING", enum:["a","b"]}` with no
description, and a second pass appends the `(Allowed: a, b)` enum hint. -/
theorem cleanSchema_not_idempotent :
    cleanSchema (cleanSchema (.obj [("anyOf",
        .arr [.obj [("const", .str "a")], .obj [("const", .str "b")]])])) ≠
      cleanSchema (.obj [("anyOf",
        .arr [.obj [("const", .str "a")], .obj [("const", .str "b")]])]) := by
  intro h
  have h1 : getProp (cleanSchema (cleanSchema (.obj [("anyOf",
      .arr [.obj [("const", .str "a")], .obj [("const", .str "b")]])])))
      "description" = some (.str "(Allowed: a, b)") := rfl
  have h2 : getProp (cleanSchema (.obj [("anyOf",
      .arr [.obj [("const", .str "a")], .obj [("const", .str "b")]])]))
      "description" = none := rfl
  rw [h, h2] at h1
  exact Option.noConfusion h1

/-- C1 amended: `cleanSchema` is idempotent on every non-container input
(primitives and `null` are replaced by the default string schema, which the
rewriter maps to itself); object and array inputs can gain description hints
on a second pass, as the counterexample shows. -/
theorem cleanSchema_idempotent_on_primitives (s : Json)
    (h : isContainer s = false) :
    cleanSchema (cleanSchema s) = cleanSchema s := by
  have h1 : cleanSchema s = .obj [("type", .str "STRING")] := by
    unfold cleanSchema
    rw [h]
    simp
  rw [h1]
  rfl

theorem cleanSchema_idempotent_on_primitives_witness :
    isContainer (.str "x") = false ∧
      cleanSchema (cleanSchema (.str "x")) = cleanSchema (.str "x") :=
  ⟨rfl, cleanSchema_idempotent_on_primitives (.str "x") rfl⟩

/-- C5: both response transformers map STOP to stop, MAX_TOKENS to length,
SAFETY and RECITATION to content_filter and OTHER to stop; on any other or
absent reason the single-shot transformer returns "stop" while the streaming
transformer returns `none`. -/
theorem mapFinishReason_table :
    (mapFinishReason (some "STOP") = "stop" ∧
     streamMapFinishReason "STOP" = some "stop" ∧
     mapFinishReason (some "MAX_TOKENS") = "length" ∧
     streamMapFinishReason "MAX_TOKENS" = some "length" ∧
     mapFinishReason (some "SAFETY") = "content_filter" ∧
     streamMapFinishReason "SAFETY" = some "content_filter" ∧
     mapFinishReason (some "RECITATION") = "content_filter" ∧
     streamMapFinishReason "RECITATION" = some "content_filter" ∧
     mapFinishReason (some "OTHER") = "stop" ∧
     streamMapFinishReason "OTHER" = some "stop" ∧
     mapFinishReason none = "stop") ∧
    (∀ r : String,
      r ∉ (["STOP", "MAX_TOKENS", "SAFETY", "RECITATION", "OTHER"] : List String) →
      mapFinishReason (some r) = "stop" ∧ streamMapFinishReason r = none) := by
  refine ⟨by decide, ?_⟩
  intro r hr
  simp only [List.mem_cons, List.not_mem_nil, or_false, not_or] at hr
  obtain ⟨n1, n2, n3, n4, n5⟩ := hr
  constructor
  · simp [mapFinishReason, n1, n2, n3, n4, n5]
  · simp [streamMapFinishReason, n1, n2, n3, n4, n5]

theorem mapFinishReason_table_witness :
    mapFinishReason (some "FINISH_REASON_UNSPECIFIED") = "stop" ∧
      streamMapFinishReason "FINISH_REASON_UNSPECIFIED" = none :=
  mapFinishReason_table.2 "FINISH_REASON_UNSPECIFIED" (by decide)

theorem transformTools_all_nonfunction (ts : List OpenAITool)
    (h : ∀ t ∈ ts, t.type ≠ "function") : transformTools ts = [] := by
  unfold transformTools
  have hd : ts.filterMap (fun tool =>
      if tool.type != "function" then none
      else some { name := tool.function.name
                  description := tool.function.description
                  parameters := cleanSchema (tool.function.parameters.getD .null)
                  : FunctionDeclaration }) = [] := by
    rw [List.filterMap_eq_nil_iff]
    intro t ht
    simp [h t ht]
  rw [hd]
  rfl

/-- C6 counterexample: a non-empty tools array with no function-typed entry
does not make `transformRequest` omit the tools field; `transformTools`
returns `[]` and the transformer stores it, so the internal request carries
`tools: []`. -/
theorem transformRequest_empty_tools_not_omitted :
    (transformRequest customToolReq).tools ≠ none ∧
      (transformRequest customToolReq).tools = some [] := by
  constructor
  · intro h
    have h2 : (transformRequest customToolReq).tools = some [] := rfl
    rw [h] at h2
    exact Option.noConfusion h2
  · rfl

/-- C6 amended: on a request whose tools array is non-empty but contains no
entry of type "function", `transformRequest` sets the tools field to the
empty array (rather than omitting it). -/
theorem transformRequest_tools_empty_array (req : OpenAIRequest)
    (ts : List OpenAITool) (h : req.tools = some ts) (hne : ts ≠ [])
    (hnf : ∀ t ∈ ts, t.type ≠ "function") :
    (transformRequest req).tools = some [] := by
  have hlen : 0 < ts.length := List.length_pos.mpr hne
  simp [transformRequest, h, hlen, transformTools_all_nonfunction ts hnf]

theorem transformRequest_tools_empty_array_witness :
    (transformRequest retrievalToolReq).tools = some [] :=
  transformRequest_tools_empty_array _ _ rfl (by simp)
    (by intro t ht; simp at ht; rw [ht]; decide)

/-- C2 counterexample: the model id "gemini-3-pro" contains no "thinking"
keyword, yet the heuristic also matches on "gemini-3", so the produced
generationConfig does carry a thinkingConfig (level "medium", with the
output-token cap raised to 65535). -/
theorem transformRequest_gemini3_pro_thinking_enabled :
    (transformRequest gemini3ProReq).generationConfig.thinkingConfig ≠ none ∧
    (transformRequest gemini3ProReq).generationConfig.thinkingConfig =
      some { includeThoughts := true, thinkingLevel := some "medium" } ∧
    (transformRequest gemini3ProReq).generationConfig.maxOutputTokens =
      some 65535 := by
  refine ⟨?_, rfl, rfl⟩
  intro h
  have h2 : (transformRequest gemini3ProReq).generationConfig.thinkingConfig =
      some { includeThoughts := true, thinkingLevel := some "medium" } := rfl
  rw [h] at h2
  exact Option.noConfusion h2

/-- C2 amended: a model id containing none of the keywords "thinking",
"gemini-3", "opus" (case-insensitively) yields no thinkingConfig; a model id
containing "gemini-3" (with or without "thinking") yields
thinkingLevel "medium" and, when the request sets no output-token cap,
maxOutputTokens 65535. -/
theorem transformRequest_thinking_heuristic :
    (∀ req : OpenAIRequest,
      jsIncludes (lowerS req.model) "thinking" = false →
      jsIncludes (lowerS req.model) "gemini-3" = false →
      jsIncludes (lowerS req.model) "opus" = false →
      (transformRequest req).generationConfig.thinkingConfig = none) ∧
    (∀ req : OpenAIRequest,
      jsIncludes (lowerS req.model) "gemini-3" = true →
      req.max_tokens = none →
      (transformRequest req).generationConfig.thinkingConfig =
        some { includeThoughts := true, thinkingLevel := some "medium" } ∧
      (transformRequest req).generationConfig.maxOutputTokens = some 65535) := by
  constructor
  · intro req h1 h2 h3
    simp [transformRequest, h1, h2, h3]
  · intro req h1 h2
    constructor
    · simp [transformRequest, h1, h2]
    · simp [transformRequest, h1, h2]

theorem transformRequest_thinking_heuristic_witness :
    (transformRequest gpt4oReq).generationConfig.thinkingConfig = none ∧
    (transformRequest gemini3ThinkingReq).generationConfig.thinkingConfig =
      some { includeThoughts := true, thinkingLevel := some "medium" } ∧
    (transformRequest gemini3ThinkingReq).generationConfig.maxOutputTokens =
      some 65535 :=
  ⟨transformRequest_thinking_heuristic.1 gpt4oReq rfl rfl rfl,
   (transformRequest_thinking_heuristic.2 gemini3ThinkingReq rfl rfl).1,
   (transformRequest_thinking_heuristic.2 gemini3ThinkingReq rfl rfl).2⟩

/-- C9: a tool-role message (with a truthy tool-call id and a declared
non-empty or absent name) whose string content fails to parse as JSON yields
a user-role content node containing a functionResponse part wrapping the
original string as `{content: <string>}`, the name defaulting to
"unknown_tool" when absent; `transformMessage` is total, so the parse
failure never escapes as an exception. -/
theorem transformMessage_unparseable_tool_result
    (s : String) (name : Option String) (tid : String)
    (tcs : Option (List OpenAIToolCall))
    (hparse : jsonParse s = none) (htid : tid ≠ "")
    (hname : ∀ n, name = some n → n ≠ "") :
    ∃ c, transformMessage (mkToolMsg s name tid tcs) = some c ∧
      c.role = .user ∧
      AntigravityPart.functionResponse (name.getD "unknown_tool")
        (.obj [("content", .str s)]) ∈ c.parts := by
  have hnm : (match name with
      | some n => if n ≠ "" then n else "unknown_tool"
      | none => "unknown_tool") = name.getD "unknown_tool" := by
    rcases name with _ | n
    · rfl
    · simp [hname n rfl]
  have heq : transformMessage (mkToolMsg s name tid tcs) =
      some { role := .user,
             parts := contentParts (mkToolMsg s name tid tcs) ++
               [.functionResponse (name.getD "unknown_tool")
                 (.obj [("content", .str s)])] } := by
    unfold transformMessage mkToolMsg
    rw [if_pos (by simp [htid])]
    rcases name with _ | n
    · simp [toolCallParts, hparse]
    · simp [toolCallParts, hparse, hname n rfl]
  exact ⟨_, heq, rfl, List.mem_append_right _ (List.mem_singleton.mpr rfl)⟩

theorem transformMessage_unparseable_tool_result_witness :
    ∃ c, transformMessage (mkToolMsg "not json" none "call_1" none) = some c ∧
      c.role = .user ∧
      AntigravityPart.functionResponse "unknown_tool"
        (.obj [("content", .str "not json")]) ∈ c.parts :=
  transformMessage_unparseable_tool_result "not json" none "call_1" none
    rfl (by decide) (by intro n h; exact absurd h (by simp))

theorem parseSSELine_preserves (st : List SSEParsedEvent × SSEAccumulator)
    (line : String) (h : ∀ ev ∈ st.1, ev.data ≠ "") :
    ∀ ev ∈ (parseSSELine st line).1, ev.data ≠ "" := by
  obtain ⟨events, cur⟩ := st
  simp only [parseSSELine]
  repeat' split
  all_goals intro ev hev
  all_goals
    first
      | exact h ev hev
      | (rcases List.mem_append.mp hev with h1 | h2
         · exact h ev h1
         · simp only [List.mem_singleton] at h2
           subst h2
           simpa using ‹_›)

theorem sse_fold_preserves (lines : List String) :
    ∀ st, (∀ ev ∈ st.1, ev.data ≠ "") →
      ∀ ev ∈ (lines.foldl parseSSELine st).1, ev.data ≠ "" := by
  induction lines with
  | nil => intro st h; simpa using h
  | cons l rest ih =>
    intro st h
    exact ih _ (parseSSELine_preserves st l h)

/-- C10: `parseSSEChunk` never returns an event with empty data: every
produced event has non-empty data (the accumulator model makes an absent
data field impossible in the output), and blocks carrying only event/id
lines or an empty data value dispatch nothing, at blank-line boundaries and
at end of input alike. -/
theorem parseSSEChunk_data_nonempty :
    (∀ chunk : String, ∀ ev ∈ parseSSEChunk chunk, ev.data ≠ "") ∧
    parseSSEChunk "event: x\nid: 1\n\n" = [] ∧
    parseSSEChunk "data:\n\n" = [] ∧
    parseSSEChunk "event: y\nid: 2" = [] := by
  refine ⟨?_, rfl, rfl, rfl⟩
  intro chunk ev hev
  have hinv := sse_fold_preserves (splitSSELines chunk) ([], {}) (by simp)
  simp only [parseSSEChunk] at hev
  split at hev
  next d hd =>
    split at hev
    · rcases List.mem_append.mp hev with h1 | h2
      · exact hinv ev h1
      · simp only [List.mem_singleton] at h2
        subst h2
        simpa using ‹_›
    · exact hinv ev hev
  next => exact hinv ev hev

theorem parseSSEChunk_data_nonempty_witness :
    ({ event := none, data := "hi", id := none } : SSEParsedEvent).data ≠ "" :=
  parseSSEChunk_data_nonempty.1 "data: hi\n\n" _ (by
    rw [show parseSSEChunk "data: hi\n\n" =
      [{ event := none, data := "hi", id := none }] from rfl]
    simp)

theorem appendMerged_chain (acc : List AntigravityContent)
    (c : AntigravityContent)
    (h : List.Chain' (fun a b : AntigravityContent => a.role ≠ b.role) acc) :
    List.Chain' (fun a b : AntigravityContent => a.role ≠ b.role)
      (appendMerged acc c) := by
  rcases acc with _ | ⟨last, others⟩
  · simp [appendMerged]
  · simp only [appendMerged]
    by_cases hr : last.role = c.role
    · rw [if_pos (by simp [hr])]
      rcases others with _ | ⟨o, os⟩
      · simp
      · rw [List.chain'_cons] at h ⊢
        exact ⟨h.1, h.2⟩
    · rw [if_neg (by simp [hr])]
      rw [List.chain'_cons]
      exact ⟨fun hq => hr hq.symm, h⟩

theorem buildContentsRev_chain (msgs : List OpenAIMessage) :
    ∀ acc, List.Chain' (fun a b : AntigravityContent => a.role ≠ b.role) acc →
      List.Chain' (fun a b : AntigravityContent => a.role ≠ b.role)
        (buildContentsRev msgs acc) := by
  induction msgs with
  | nil => intro acc h; simpa [buildContentsRev] using h
  | cons m rest ih =>
    intro acc h
    unfold buildContentsRev
    split
    · exact ih acc h
    · split
      · exact ih _ (appendMerged_chain acc _ h)
      · exact ih acc h

/-- C3: the produced contents list never holds two adjacent entries with the
same role, and two consecutive user messages merge into a single node whose
parts are concatenated in the original order. -/
theorem transformRequest_contents_alternating :
    (∀ req : OpenAIRequest,
      List.Chain' (fun a b : AntigravityContent => a.role ≠ b.role)
        (transformRequest req).contents) ∧
    (∀ model s1 s2 : String, s1 ≠ "" → s2 ≠ "" →
      (transformRequest (twoUserReq model s1 s2)).contents =
        [{ role := .user, parts := [.text s1, .text s2] }]) := by
  constructor
  · intro req
    have hc : (transformRequest req).contents =
        (buildContentsRev req.messages []).reverse := by
      simp [transformRequest]
    rw [hc]
    rw [List.chain'_reverse]
    exact (buildContentsRev_chain req.messages [] (by simp)).imp
      (fun a b h => h.symm)
  · intro model s1 s2 h1 h2
    simp [transformRequest, twoUserReq, userMsg, buildContentsRev,
      transformMessage, contentParts, toolCallParts, appendMerged, h1, h2]

theorem transformRequest_contents_alternating_witness :
    List.Chain' (fun a b : AntigravityContent => a.role ≠ b.role)
      (transformRequest (twoUserReq "m" "a" "b")).contents ∧
    (transformRequest (twoUserReq "m" "a" "b")).contents =
      [{ role := .user, parts := [.text "a", .text "b"] }] :=
  ⟨transformRequest_contents_alternating.1 (twoUserReq "m" "a" "b"),
   transformRequest_contents_alternating.2 "m" "a" "b" (by decide) (by decide)⟩

theorem PreambleFree.append {l1 l2 : List OpenAIStreamChunk}
    (h1 : PreambleFree l1) (h2 : PreambleFree l2) : PreambleFree (l1 ++ l2) := by
  intro d hd
  rcases List.mem_append.mp hd with h | h
  · exact h1 d h
  · exact h2 d h

theorem processPart_preambleFree (now : Nat) (p : Json)
    (acc : TransformState × List OpenAIStreamChunk)
    (h : PreambleFree acc.2) : PreambleFree (processPart acc now p).2 := by
  obtain ⟨st, cs⟩ := acc
  unfold processPart
  dsimp only
  repeat' split
  all_goals dsimp only
  all_goals intro d hd
  all_goals
    first
    | exact h d hd
    | (rcases List.mem_append.mp hd with h1 | h2
       · first
         | exact h d h1
         | (rcases List.mem_append.mp h1 with h3 | h4
            · exact h d h3
            · simp only [List.mem_singleton] at h4
              subst h4
              rfl)
       · simp only [List.mem_singleton] at h2
         subst h2
         rfl)

theorem processPart_emitted (now : Nat) (p : Json)
    (acc : TransformState × List OpenAIStreamChunk) :
    (processPart acc now p).1.hasEmittedRole = acc.1.hasEmittedRole := by
  obtain ⟨st, cs⟩ := acc
  unfold processPart
  dsimp only
  repeat' split
  all_goals rfl

theorem foldl_processPart_preambleFree (parts : List Json) (now : Nat) :
    ∀ acc : TransformState × List OpenAIStreamChunk, PreambleFree acc.2 →
      PreambleFree ((parts.foldl (fun a p => processPart a now p) acc)).2 := by
  induction parts with
  | nil => intro acc h; simpa using h
  | cons p rest ih =>
    intro acc h
    exact ih _ (processPart_preambleFree now p acc h)

theorem foldl_processPart_emitted (parts : List Json) (now : Nat) :
    ∀ acc : TransformState × List OpenAIStreamChunk,
      ((parts.foldl (fun a p => processPart a now p) acc)).1.hasEmittedRole =
        acc.1.hasEmittedRole := by
  induction parts with
  | nil => intro acc; rfl
  | cons p rest ih =>
    intro acc
    rw [List.foldl_cons, ih _, processPart_emitted]

theorem foldl_processPart_emitted_true (parts : List Json) (now : Nat)
    (st : TransformState) (cs : List OpenAIStreamChunk)
    (h : st.hasEmittedRole = true) :
    ((parts.foldl (fun a p => processPart a now p) (st, cs))).1.hasEmittedRole
      = true :=
  (foldl_processPart_emitted parts now (st, cs)).trans h

theorem transform_emitted_true (now : Nat) (e : SSEParsedEvent)
    (st : TransformState) (h : st.hasEmittedRole = true) :
    PreambleFree (transformAntigravityEvent now e st).1 ∧
      (transformAntigravityEvent now e st).2.hasEmittedRole = true := by
  unfold transformAntigravityEvent
  simp only [h, Bool.not_true]
  repeat' split
  all_goals dsimp only
  all_goals
    first
    | (exfalso; simp_all; done)
    | exact ⟨fun d hd => absurd hd (List.not_mem_nil d), h⟩
    | (constructor
       · refine PreambleFree.append (PreambleFree.append
           (fun d hd => absurd hd (List.not_mem_nil d)) ?_) ?_
         · first
           | exact foldl_processPart_preambleFree _ now _
               (fun d hd => absurd hd (List.not_mem_nil d))
           | exact fun d hd => absurd hd (List.not_mem_nil d)
         · first
           | exact fun d hd => absurd hd (List.not_mem_nil d)
           | (intro d hd
              simp only [List.mem_singleton] at hd
              subst hd
              rfl)
       · first
         | exact foldl_processPart_emitted_true _ now _ _ h
         | exact h)

theorem transform_emitted_false (now : Nat) (e : SSEParsedEvent)
    (st : TransformState) (h : st.hasEmittedRole = false) :
    ((transformAntigravityEvent now e st).1 = [] ∧
      (transformAntigravityEvent now e st).2.hasEmittedRole = false) ∨
    (∃ rest, (transformAntigravityEvent now e st).1 = preambleOf st :: rest ∧
      PreambleFree rest ∧
      (transformAntigravityEvent now e st).2.hasEmittedRole = true) := by
  unfold transformAntigravityEvent
  simp only [h, Bool.not_false]
  repeat' split
  all_goals dsimp only
  all_goals
    first
    | (exfalso; simp_all; done)
    | exact Or.inl ⟨rfl, h⟩
    | (refine Or.inr ⟨_, rfl, ?_, ?_⟩
       · refine PreambleFree.append ?_ ?_
         · first
           | exact foldl_processPart_preambleFree _ now _
               (fun d hd => absurd hd (List.not_mem_nil d))
           | exact fun d hd => absurd hd (List.not_mem_nil d)
         · first
           | exact fun d hd => absurd hd (List.not_mem_nil d)
           | (intro d hd
              simp only [List.mem_singleton] at hd
              subst hd
              rfl)
       · first
         | exact foldl_processPart_emitted_true _ now _ _ rfl
         | rfl)

theorem runEvents_emitted_true (evs : List (Nat × SSEParsedEvent)) :
    ∀ st : TransformState, st.hasEmittedRole = true →
      PreambleFree (runEvents evs st).1 ∧
        (runEvents evs st).2.hasEmittedRole = true := by
  induction evs with
  | nil =>
    intro st h
    exact ⟨fun d hd => absurd hd (List.not_mem_nil d), h⟩
  | cons ev rest ih =>
    intro st h
    obtain ⟨now, e⟩ := ev
    have h1 := transform_emitted_true now e st h
    have h2 := ih _ h1.2
    unfold runEvents
    exact ⟨h1.1.append h2.1, h2.2⟩

theorem goodOut_of_preambleFree {out : List OpenAIStreamChunk}
    (h : PreambleFree out) : GoodOut out := by
  constructor
  · have : out.filter (fun c => isPreambleChunk c) = [] := by
      rw [List.filter_eq_nil_iff]
      intro c hc
      simp [h c hc]
    simp [this]
  · intro l1 c l2 hsplit hpre
    exfalso
    have : c ∈ out := by rw [hsplit]; exact List.mem_append_right _ (List.mem_cons_self c l2)
    rw [h c this] at hpre
    exact Bool.noConfusion hpre

theorem goodOut_cons_preamble {p : OpenAIStreamChunk}
    {rest : List OpenAIStreamChunk} (hrest : PreambleFree rest) :
    GoodOut (p :: rest) := by
  constructor
  · have hr : rest.filter (fun c => isPreambleChunk c) = [] := by
      rw [List.filter_eq_nil_iff]
      intro c hc
      simp [hrest c hc]
    by_cases hp : isPreambleChunk p
    · simp [List.filter_cons, hp, hr]
    · simp [List.filter_cons, hp, hr]
  · intro l1 c l2 hsplit hpre
    rcases l1 with _ | ⟨d0, l1'⟩
    · intro d hd; exact absurd hd (List.not_mem_nil d)
    · exfalso
      simp only [List.cons_append, List.cons.injEq] at hsplit
      have hc : c ∈ rest := by
        rw [hsplit.2]
        exact List.mem_append_right _ (List.mem_cons_self c l2)
      rw [hrest c hc] at hpre
      exact Bool.noConfusion hpre

theorem runEvents_goodOut (evs : List (Nat × SSEParsedEvent)) :
    ∀ st : TransformState, st.hasEmittedRole = false →
      GoodOut (runEvents evs st).1 := by
  induction evs with
  | nil =>
    intro st h
    exact goodOut_of_preambleFree (fun d hd => absurd hd (List.not_mem_nil d))
  | cons ev rest ih =>
    intro st h
    obtain ⟨now, e⟩ := ev
    rcases transform_emitted_false now e st h with ⟨h1, h2⟩ | ⟨tail, h1, hpf, h2⟩
    · have := ih _ h2
      unfold runEvents
      dsimp only
      rw [h1]
      simpa using this
    · have hr := runEvents_emitted_true rest _ h2
      unfold runEvents
      dsimp only
      rw [h1]
      have : preambleOf st :: tail ++ (runEvents rest
          (transformAntigravityEvent now e st).2).1 =
          preambleOf st :: (tail ++ (runEvents rest
            (transformAntigravityEvent now e st).2).1) := by simp
      rw [this]
      exact goodOut_cons_preamble (hpf.append hr.1)

/-- C4 counterexample: on a fresh state, a `[DONE]` event makes the first
`transformAntigravityEvent` call return the empty chunk list, which has no
element zero, so the first call does not always yield a role preamble. -/
theorem stream_first_call_no_preamble_on_done :
    (transformAntigravityEvent 0 doneEvent (createTransformState 0 "m")).1
      = [] ∧
    ¬ ∃ c rest,
      (transformAntigravityEvent 0 doneEvent (createTransformState 0 "m")).1
        = c :: rest ∧ isPreambleChunk c = true := by
  refine ⟨rfl, ?_⟩
  rintro ⟨c, rest, hsplit, -⟩
  rw [show (transformAntigravityEvent 0 doneEvent
    (createTransformState 0 "m")).1 = [] from rfl] at hsplit
  exact List.noConfusion hsplit

/-- C4 amended: whenever a call on a state with no emitted preamble returns
a non-empty chunk list, its element zero is the role-preamble chunk (delta
role "assistant", empty content) and no later chunk of that call is a
preamble; and over any event sequence on one state created by
`createTransformState`, at most one preamble chunk is ever emitted and no
content or tool-call chunk precedes it. -/
theorem stream_preamble_protocol :
    (∀ (now : Nat) (e : SSEParsedEvent) (st : TransformState),
      st.hasEmittedRole = false →
      (transformAntigravityEvent now e st).1 ≠ [] →
      ∃ rest, (transformAntigravityEvent now e st).1 = preambleOf st :: rest ∧
        isPreambleChunk (preambleOf st) = true ∧ PreambleFree rest) ∧
    (∀ (evs : List (Nat × SSEParsedEvent)) (now : Nat) (model : String),
      GoodOut (runEvents evs (createTransformState now model)).1) := by
  constructor
  · intro now e st h hne
    rcases transform_emitted_false now e st h with ⟨h1, _⟩ | ⟨tail, h1, hpf, _⟩
    · exact absurd h1 hne
    · exact ⟨tail, h1, rfl, hpf⟩
  · intro evs now model
    exact runEvents_goodOut evs _ rfl

theorem objSet_mem {l : List (String × Json)} {k : String} {v : Json}
    {p : String × Json} (h : p ∈ objSet l k v) : p ∈ l ∨ p = (k, v) := by
  induction l with
  | nil => simpa [objSet] using h
  | cons q rest ih =>
    unfold objSet at h
    split at h
    · rcases List.mem_cons.mp h with h1 | h1
      · right
        rename_i hk
        rw [h1]
        simp only [beq_iff_eq] at hk
        rw [hk]
      · left; exact List.mem_cons_of_mem q h1
    · rcases List.mem_cons.mp h with h1 | h1
      · left; rw [h1]; exact List.mem_cons_self q rest
      · rcases ih h1 with h2 | h2
        · left; exact List.mem_cons_of_mem q h2
        · right; exact h2

theorem objSet_keys_mem {l : List (String × Json)} {k a : String} {v : Json}
    (h : a ∈ (objSet l k v).map Prod.fst) :
    a ∈ l.map Prod.fst ∨ a = k := by
  rcases List.mem_map.mp h with ⟨p, hp, rfl⟩
  rcases objSet_mem hp with h1 | h1
  · exact Or.inl (List.mem_map_of_mem Prod.fst h1)
  · right; rw [h1]

theorem objSet_keys_nodup {l : List (String × Json)} {k : String} {v : Json}
    (h : (l.map Prod.fst).Nodup) : ((objSet l k v).map Prod.fst).Nodup := by
  induction l with
  | nil => simp [objSet]
  | cons q rest ih =>
    unfold objSet
    split
    · simpa using h
    · rename_i hk
      simp only [List.map_cons, List.nodup_cons] at h ⊢
      refine ⟨?_, ih h.2⟩
      intro hmem
      rcases objSet_keys_mem hmem with h1 | h1
      · exact h.1 h1
      · simp only [beq_iff_eq] at hk
        exact hk (by rw [h1])

theorem foldl_objSet_keys_nodup (l : List (String × Json)) :
    ∀ acc : List (String × Json), (acc.map Prod.fst).Nodup →
      ((l.foldl (fun a p => objSet a p.1 p.2) acc).map Prod.fst).Nodup := by
  induction l with
  | nil => intro acc h; simpa using h
  | cons p rest ih => intro acc h; exact ih _ (objSet_keys_nodup h)

theorem canonEntries_keys_nodup (l : List (String × Json)) :
    ((canonEntries l).map Prod.fst).Nodup :=
  foldl_objSet_keys_nodup l [] (by simp)

theorem mem_foldl_objSet {l : List (String × Json)} {p : String × Json} :
    ∀ acc : List (String × Json),
      p ∈ l.foldl (fun a q => objSet a q.1 q.2) acc → p ∈ acc ∨ p ∈ l := by
  induction l with
  | nil => intro acc h; exact Or.inl (by simpa using h)
  | cons q rest ih =>
    intro acc h
    rcases ih _ h with h1 | h1
    · rcases objSet_mem h1 with h2 | h2
      · exact Or.inl h2
      · right
        rw [h2]
        exact List.mem_cons_self q rest
    · exact Or.inr (List.mem_cons_of_mem q h1)

theorem mem_canonEntries {l : List (String × Json)} {p : String × Json}
    (h : p ∈ canonEntries l) : p ∈ l := by
  rcases mem_foldl_objSet [] h with h1 | h1
  · exact absurd h1 (List.not_mem_nil p)
  · exact h1

theorem objSet_of_not_mem {l : List (String × Json)} {k : String} {v : Json}
    (h : k ∉ l.map Prod.fst) : objSet l k v = l ++ [(k, v)] := by
  induction l with
  | nil => rfl
  | cons q rest ih =>
    simp only [List.map_cons, List.mem_cons, not_or] at h
    unfold objSet
    rw [if_neg (by simp only [beq_iff_eq]; exact fun hq => h.1 hq.symm)]
    rw [ih h.2]
    rfl

theorem foldl_objSet_eq_append (l : List (String × Json)) :
    ∀ acc : List (String × Json),
      ((acc.map Prod.fst ++ l.map Prod.fst)).Nodup →
      l.foldl (fun a q => objSet a q.1 q.2) acc = acc ++ l := by
  induction l with
  | nil => intro acc _; simp
  | cons q rest ih =>
    intro acc h
    simp only [List.map_cons] at h
    have hq : q.1 ∉ acc.map Prod.fst := by
      intro hmem
      have := (List.nodup_append.mp h).2.2
      exact this hmem (List.mem_cons_self q.1 _)
    have step : List.foldl (fun a r => objSet a r.1 r.2) acc (q :: rest) =
        List.foldl (fun a r => objSet a r.1 r.2) (acc ++ [q]) rest := by
      rw [List.foldl_cons, objSet_of_not_mem hq]
    rw [step, ih (acc ++ [q]) (by simpa using h)]
    simp

theorem canonEntries_eq_self {l : List (String × Json)}
    (h : (l.map Prod.fst).Nodup) : canonEntries l = l := by
  have := foldl_objSet_eq_append l [] (by simpa using h)
  simpa [canonEntries] using this

theorem objGet_cons (q : String × Json) (rest : List (String × Json))
    (k : String) :
    objGet (q :: rest) k = if q.1 = k then some q.2 else objGet rest k := by
  simp only [objGet, List.find?]
  by_cases h : q.1 = k
  · simp [h]
  · rw [if_neg h]
    simp [beq_eq_false_iff_ne.mpr h]

theorem objGet_objSet_self (l : List (String × Json)) (k : String) (v : Json) :
    objGet (objSet l k v) k = some v := by
  induction l with
  | nil => simp [objSet, objGet_cons]
  | cons q rest ih =>
    unfold objSet
    split
    · rename_i hk
      simp only [beq_iff_eq] at hk
      rw [objGet_cons]
      simp [hk]
    · rename_i hk
      rw [objGet_cons]
      rw [if_neg (by simpa using hk)]
      exact ih

theorem objGet_objSet_ne (l : List (String × Json)) {k k' : String}
    (v : Json) (h : k' ≠ k) : objGet (objSet l k v) k' = objGet l k' := by
  induction l with
  | nil =>
    show objGet [(k, v)] k' = objGet [] k'
    rw [objGet_cons]
    rw [if_neg (show ¬((k, v).1 = k') from fun hq => h hq.symm)]
  | cons q rest ih =>
    unfold objSet
    split
    · rename_i hk
      simp only [beq_iff_eq] at hk
      rw [objGet_cons, objGet_cons]
      rw [if_neg (show ¬((q.1, v).1 = k') from by
            dsimp only; rw [hk]; exact fun hq => h hq.symm),
          if_neg (show ¬(q.1 = k') from by
            rw [hk]; exact fun hq => h hq.symm)]
    · rw [objGet_cons, objGet_cons, ih]

theorem objGet_eq_none_of_not_mem {l : List (String × Json)} {k : String}
    (h : k ∉ l.map Prod.fst) : objGet l k = none := by
  induction l with
  | nil => rfl
  | cons q rest ih =>
    simp only [List.map_cons, List.mem_cons, not_or] at h
    rw [objGet_cons]
    rw [if_neg (fun hq => h.1 hq.symm)]
    exact ih h.2

theorem filterMap_keys_subset {g : String × Json → Option (String × Json)}
    (hg : ∀ p r, g p = some r → r.1 = p.1) {l : List (String × Json)}
    {a : String} (h : a ∈ (l.filterMap g).map Prod.fst) :
    a ∈ l.map Prod.fst := by
  rcases List.mem_map.mp h with ⟨r, hr, rfl⟩
  rcases List.mem_filterMap.mp hr with ⟨p, hp, hgp⟩
  rw [hg p r hgp]
  exact List.mem_map_of_mem Prod.fst hp

theorem filterMap_keys_nodup {g : String × Json → Option (String × Json)}
    (hg : ∀ p r, g p = some r → r.1 = p.1) {l : List (String × Json)}
    (h : (l.map Prod.fst).Nodup) : ((l.filterMap g).map Prod.fst).Nodup := by
  induction l with
  | nil => simp
  | cons p rest ih =>
    simp only [List.map_cons, List.nodup_cons] at h
    rcases hgp : g p with _ | r
    · simp only [List.filterMap_cons, hgp]
      exact ih h.2
    · simp only [List.filterMap_cons, hgp]
      simp only [List.map_cons, List.nodup_cons]
      refine ⟨?_, ih h.2⟩
      intro hmem
      rw [hg p r hgp] at hmem
      exact h.1 (filterMap_keys_subset hg hmem)

theorem objGet_filterMap {g : String × Json → Option (String × Json)}
    (hg : ∀ p r, g p = some r → r.1 = p.1) {l : List (String × Json)}
    (h : (l.map Prod.fst).Nodup) (k : String) :
    objGet (l.filterMap g) k =
      (objGet l k).bind (fun v => (g (k, v)).map Prod.snd) := by
  induction l with
  | nil => rfl
  | cons p rest ih =>
    simp only [List.map_cons, List.nodup_cons] at h
    by_cases hk : p.1 = k
    · have hpk : p = (k, p.2) := by rw [← hk]
      rcases hgp : g p with _ | r
      · have h1 : objGet (rest.filterMap g) k = none := by
          apply objGet_eq_none_of_not_mem
          intro hmem
          exact h.1 (by rw [hk]; exact filterMap_keys_subset hg hmem)
        simp only [List.filterMap_cons, hgp]
        rw [h1, objGet_cons, if_pos hk]
        have hnone : g (k, p.2) = none := by rw [← hpk]; exact hgp
        simp [hnone]
      · have hr1 : r.1 = p.1 := hg p r hgp
        simp only [List.filterMap_cons, hgp]
        rw [objGet_cons, if_pos (by rw [hr1]; exact hk)]
        rw [objGet_cons, if_pos hk]
        have hsome : g (k, p.2) = some r := by rw [← hpk]; exact hgp
        simp [hsome]
    · rcases hgp : g p with _ | r
      · simp only [List.filterMap_cons, hgp]
        rw [objGet_cons, if_neg hk]
        exact ih h.2
      · have hr1 : r.1 = p.1 := hg p r hgp
        simp only [List.filterMap_cons, hgp]
        rw [objGet_cons, if_neg (by rw [hr1]; exact hk)]
        rw [objGet_cons, if_neg hk]
        exact ih h.2

theorem toGeminiEntry_key (rec : Json → Json) (names : List String)
    (p : String × Json) (r : String × Json)
    (h : toGeminiEntry rec names p = some r) : r.1 = p.1 := by
  unfold toGeminiEntry at h
  dsimp only at h
  repeat' split at h
  all_goals
    first
    | exact Option.noConfusion h
    | (injection h with h1; rw [← h1])

theorem truthy_of_container {v : Json} (h : isContainer v = true) :
    truthy v = true := by
  cases v <;> first | rfl | exact Bool.noConfusion h

theorem jsEntriesOf_eq_nil_of_keys {pv : Json} (h : jsKeysOf pv = []) :
    jsEntriesOf pv = [] := by
  unfold jsKeysOf at h
  exact List.map_eq_nil_iff.mp h

theorem invSchema_stringDefault :
    InvSchema (.obj [("type", .str "STRING")]) := by
  refine InvSchema.obj _ ?_ ?_ ?_ ?_
  · intro r props h1 h2 h3
    exact absurd h1 (by
      rw [show getProp (Json.obj [("type", Json.str "STRING")]) "required"
        = none from rfl]
      simp)
  · intro props k v h2 hkv
    exact absurd h2 (by
      rw [show getProp (Json.obj [("type", Json.str "STRING")]) "properties"
        = none from rfl]
      simp)
  · intro it h3
    exact absurd h3 (by
      rw [show getProp (Json.obj [("type", Json.str "STRING")]) "items"
        = none from rfl]
      simp)
  · intro uk hmem es h4
    simp only [List.mem_cons, List.not_mem_nil, or_false] at hmem
    rcases hmem with rfl | rfl | rfl
    · exact absurd h4 (by
        rw [show getProp (Json.obj [("type", Json.str "STRING")]) "anyOf"
          = none from rfl]
        simp)
    · exact absurd h4 (by
        rw [show getProp (Json.obj [("type", Json.str "STRING")]) "oneOf"
          = none from rfl]
        simp)
    · exact absurd h4 (by
        rw [show getProp (Json.obj [("type", Json.str "STRING")]) "allOf"
          = none from rfl]
        simp)

theorem stream_preamble_protocol_witness :
    ∃ rest, (transformAntigravityEvent 0 candidateOnlyEvent
        (createTransformState 0 "m")).1 =
      preambleOf (createTransformState 0 "m") :: rest ∧
      isPreambleChunk (preambleOf (createTransformState 0 "m")) = true ∧
      PreambleFree rest :=
  stream_preamble_protocol.1 0 candidateOnlyEvent (createTransformState 0 "m")
    rfl (by
      rw [show (transformAntigravityEvent 0 candidateOnlyEvent
        (createTransformState 0 "m")).1 =
        [preambleOf (createTransformState 0 "m")] from rfl]
      simp)

end Antigravity

namespace Antigravity

theorem jsEntriesOf_noncontainer {v : Json} (h : isContainer v = false) :
    jsEntriesOf v = [] := by
  cases v <;> first | rfl | exact Bool.noConfusion h

theorem toGeminiPropNames_some_container {lc : List (String × Json)}
    {pv : Json} (h : objGet lc "properties" = some pv)
    (hc : isContainer pv = true) : toGeminiPropNames lc = jsKeysOf pv := by
  unfold toGeminiPropNames
  rw [h]
  simp [truthy_of_container hc, hc]

theorem toGeminiEntry_properties_container (rec : Json → Json)
    (names : List String) {pv : Json} (h : isContainer pv = true) :
    toGeminiEntry rec names ("properties", pv) =
      some ("properties",
        .obj ((jsEntriesOf pv).map (fun q => (q.1, rec q.2)))) := by
  unfold toGeminiEntry
  simp [h]

theorem toGeminiEntry_properties_noncontainer (rec : Json → Json)
    (names : List String) {pv : Json} (h : isContainer pv = false) :
    toGeminiEntry rec names ("properties", pv) = some ("properties", pv) := by
  unfold toGeminiEntry
  simp [h]

theorem toGeminiEntry_items (rec : Json → Json) (names : List String)
    (v : Json) :
    toGeminiEntry rec names ("items", v) =
      some ("items", if typeofObject v then rec v else v) := by
  unfold toGeminiEntry
  by_cases h : typeofObject v = true
  · simp [h]
  · simp [h]

theorem toGeminiEntry_required_arr (rec : Json → Json) (names : List String)
    (reqs : List Json) :
    toGeminiEntry rec names ("required", .arr reqs) =
      (if names.length > 0 then
        (if (reqs.filter (requiredFilterPred names)).length > 0 then
          some ("required", .arr (reqs.filter (requiredFilterPred names)))
        else none)
      else some ("required", .arr reqs)) := by
  unfold toGeminiEntry
  simp [Json.isArr]

theorem toGeminiEntry_required_nonarr (rec : Json → Json)
    (names : List String) {v : Json} (h : v.isArr = false) :
    toGeminiEntry rec names ("required", v) = some ("required", v) := by
  unfold toGeminiEntry
  simp [h]

theorem toGeminiEntry_union_arr (rec : Json → Json) (names : List String)
    {uk : String} (h : uk ∈ (["anyOf", "oneOf", "allOf"] : List String))
    (es : List Json) :
    toGeminiEntry rec names (uk, .arr es) = some (uk, .arr (es.map rec)) := by
  simp only [List.mem_cons, List.not_mem_nil, or_false] at h
  unfold toGeminiEntry
  rcases h with rfl | rfl | rfl <;> simp [Json.isArr]

theorem toGeminiEntry_union_nonarr (rec : Json → Json) (names : List String)
    {uk : String} (h : uk ∈ (["anyOf", "oneOf", "allOf"] : List String))
    {v : Json} (hv : v.isArr = false) :
    toGeminiEntry rec names (uk, v) = some (uk, v) := by
  simp only [List.mem_cons, List.not_mem_nil, or_false] at h
  unfold toGeminiEntry
  rcases h with rfl | rfl | rfl <;> simp [hv]

end Antigravity

namespace Antigravity

theorem toGemini_invSchema : ∀ (fuel : Nat) (y : Json),
    InvSchema (toGeminiFormat fuel y) := by
  intro fuel
  induction fuel with
  | zero => intro y; exact InvSchema.prim _ rfl
  | succ fuel ih =>
    intro y
    match y with
    | .null => exact InvSchema.prim _ rfl
    | .bool _ => exact InvSchema.prim _ rfl
    | .num _ => exact InvSchema.prim _ rfl
    | .str _ => exact InvSchema.prim _ rfl
    | .arr l =>
      show InvSchema (.arr (l.map (toGeminiFormat fuel)))
      refine InvSchema.arr _ ?_
      intro x hx
      rcases List.mem_map.mp hx with ⟨x0, _, rfl⟩
      exact ih x0
    | .obj l =>
      show InvSchema (.obj (ensureArrayItems ((canonEntries l).filterMap
        (toGeminiEntry (toGeminiFormat fuel)
          (toGeminiPropNames (canonEntries l))))))
      have hg := toGeminiEntry_key (toGeminiFormat fuel)
        (toGeminiPropNames (canonEntries l))
      have hnLc : ((canonEntries l).map Prod.fst).Nodup :=
        canonEntries_keys_nodup l
      set R := toGeminiFormat fuel with hR
      set lc := canonEntries l with hlc
      set names := toGeminiPropNames lc with hnamesDef
      set E := lc.filterMap (toGeminiEntry R names) with hE
      have hnE : (E.map Prod.fst).Nodup := filterMap_keys_nodup hg hnLc
      have hgetE : ∀ k, objGet E k = (objGet lc k).bind
          (fun v => (toGeminiEntry R names (k, v)).map Prod.snd) :=
        fun k => objGet_filterMap hg hnLc k
      have hE2ne : ∀ k, k ≠ "items" →
          objGet (ensureArrayItems E) k = objGet E k := by
        intro k hk
        unfold ensureArrayItems
        dsimp only
        split
        · exact objGet_objSet_ne E _ hk
        · rfl
      have hE2items : objGet (ensureArrayItems E) "items" =
            some (.obj [("type", .str "STRING")]) ∨
          objGet (ensureArrayItems E) "items" = objGet E "items" := by
        unfold ensureArrayItems
        dsimp only
        split
        · exact Or.inl (objGet_objSet_self E _ _)
        · exact Or.inr rfl
      have hnE2 : ((ensureArrayItems E).map Prod.fst).Nodup := by
        unfold ensureArrayItems
        dsimp only
        split
        · exact objSet_keys_nodup hnE
        · exact hnE
      have hget : ∀ k, getProp (.obj (ensureArrayItems E)) k =
          objGet (ensureArrayItems E) k := by
        intro k
        simp only [getProp, canonEntries_eq_self hnE2]
      refine InvSchema.obj _ ?_ ?_ ?_ ?_
      · -- a kept required array is a non-empty list of property names
        intro r props h1 h2 h3
        rw [hget, hE2ne _ (by decide), hgetE] at h1
        rw [hget, hE2ne _ (by decide), hgetE] at h2
        rcases hpv : objGet lc "properties" with _ | pv
        · rw [hpv, Option.none_bind] at h2
          exact Option.noConfusion h2
        · rw [hpv, Option.some_bind] at h2
          cases hcont : isContainer pv with
          | false =>
            rw [toGeminiEntry_properties_noncontainer R names hcont] at h2
            simp only [Option.map_some', Option.some.injEq] at h2
            rw [h2] at hcont
            exact Bool.noConfusion hcont
          | true =>
            rw [toGeminiEntry_properties_container R names hcont] at h2
            simp only [Option.map_some', Option.some.injEq,
              Json.obj.injEq] at h2
            subst h2
            have hnames : names = jsKeysOf pv :=
              hnamesDef.trans (toGeminiPropNames_some_container hpv hcont)
            have hpne : jsEntriesOf pv ≠ [] := by
              intro hnil
              exact h3 (by rw [hnil]; rfl)
            have hlen : names.length > 0 := by
              rw [hnames]
              unfold jsKeysOf
              rw [List.length_map]
              exact List.length_pos.mpr hpne
            rcases hrv : objGet lc "required" with _ | rv
            · rw [hrv, Option.none_bind] at h1
              exact Option.noConfusion h1
            · rw [hrv, Option.some_bind] at h1
              cases hva : rv.isArr with
              | false =>
                rw [toGeminiEntry_required_nonarr R names hva] at h1
                simp only [Option.map_some', Option.some.injEq] at h1
                rw [h1] at hva
                exact Bool.noConfusion hva
              | true =>
                cases rv
                case arr reqs =>
                  rw [toGeminiEntry_required_arr R names reqs,
                    if_pos hlen] at h1
                  by_cases hval :
                      (reqs.filter (requiredFilterPred names)).length > 0
                  · rw [if_pos hval] at h1
                    simp only [Option.map_some', Option.some.injEq,
                      Json.arr.injEq] at h1
                    subst h1
                    refine ⟨?_, ?_⟩
                    · intro hnil
                      rw [hnil] at hval
                      simp at hval
                    · intro e he
                      obtain ⟨-, hpred⟩ := List.mem_filter.mp he
                      cases e with
                      | str s =>
                        refine ⟨s, rfl, ?_⟩
                        have hs : s ∈ names := by
                          have hc : names.contains s = true := hpred
                          simpa using hc
                        rw [hnames] at hs
                        simp only [jsKeysOf] at hs
                        rcases List.mem_map.mp hs with ⟨q, hq, rfl⟩
                        exact List.mem_map.mpr
                          ⟨(q.1, R q.2), List.mem_map_of_mem _ hq, rfl⟩
                      | null => exact Bool.noConfusion hpred
                      | bool b => exact Bool.noConfusion hpred
                      | num qn => exact Bool.noConfusion hpred
                      | arr es2 => exact Bool.noConfusion hpred
                      | obj o2 => exact Bool.noConfusion hpred
                  · rw [if_neg hval] at h1
                    exact Option.noConfusion h1
                all_goals exact Bool.noConfusion hva
      · -- values of the rebuilt properties map are recursively clean
        intro props k v h2 hkv
        rw [hget, hE2ne _ (by decide), hgetE] at h2
        rcases hpv : objGet lc "properties" with _ | pv
        · rw [hpv, Option.none_bind] at h2
          exact Option.noConfusion h2
        · rw [hpv, Option.some_bind] at h2
          cases hcont : isContainer pv with
          | false =>
            rw [toGeminiEntry_properties_noncontainer R names hcont] at h2
            simp only [Option.map_some', Option.some.injEq] at h2
            rw [← h2] at hkv
            rw [jsEntriesOf_noncontainer hcont] at hkv
            exact absurd hkv (List.not_mem_nil _)
          | true =>
            rw [toGeminiEntry_properties_container R names hcont] at h2
            simp only [Option.map_some', Option.some.injEq] at h2
            have hkv2 : (k, v) ∈
                (jsEntriesOf pv).map (fun q => (q.1, R q.2)) := by
              rw [← h2] at hkv
              exact mem_canonEntries hkv
            rcases List.mem_map.mp hkv2 with ⟨q, hq, hqe⟩
            have hv : v = R q.2 := (congrArg Prod.snd hqe).symm
            rw [hv]
            exact ih q.2
      · -- the items value is recursively clean
        intro it h3
        rw [hget] at h3
        rcases hE2items with hcase | hcase
        · rw [hcase] at h3
          injection h3 with h3
          rw [← h3]
          exact invSchema_stringDefault
        · rw [hcase, hgetE] at h3
          rcases hiv : objGet lc "items" with _ | iv
          · rw [hiv, Option.none_bind] at h3
            exact Option.noConfusion h3
          · rw [hiv, Option.some_bind] at h3
            rw [toGeminiEntry_items R names iv] at h3
            simp only [Option.map_some', Option.some.injEq] at h3
            subst h3
            cases hto : typeofObject iv with
            | true =>
              rw [if_pos rfl]
              exact ih iv
            | false =>
              rw [if_neg (by simp)]
              refine InvSchema.prim _ ?_
              cases iv <;> first | rfl | exact Bool.noConfusion hto
      · -- union branch elements are recursively clean
        intro uk hmem es h4 x hx
        have hmem2 : uk = "anyOf" ∨ uk = "oneOf" ∨ uk = "allOf" := by
          simpa using hmem
        have hukne : uk ≠ "items" := by
          rcases hmem2 with rfl | rfl | rfl <;> decide
        rw [hget, hE2ne _ hukne, hgetE] at h4
        rcases huv : objGet lc uk with _ | uv
        · rw [huv, Option.none_bind] at h4
          exact Option.noConfusion h4
        · rw [huv, Option.some_bind] at h4
          cases hva : uv.isArr with
          | false =>
            rw [toGeminiEntry_union_nonarr R names hmem hva] at h4
            simp only [Option.map_some', Option.some.injEq] at h4
            rw [h4] at hva
            exact Bool.noConfusion hva
          | true =>
            cases uv
            case arr es0 =>
              rw [toGeminiEntry_union_arr R names hmem es0] at h4
              simp only [Option.map_some', Option.some.injEq,
                Json.arr.injEq] at h4
              subst h4
              rcases List.mem_map.mp hx with ⟨x0, _, rfl⟩
              exact ih x0
            all_goals exact Bool.noConfusion hva

end Antigravity

namespace Antigravity

/-- C7 counterexample: the claim as stated fails.  `cleanSchema` keeps a
`required` array verbatim when the node has no `properties` map at all (the
Object.keys collection is empty, so the filter is skipped), so the output
node `{required:["x"]}` names a property that does not exist. -/
theorem cleanSchema_required_not_all_nodes :
    ¬ OrigRequiredInv (cleanSchema requiredCounterexample) := by
  intro h
  rw [show cleanSchema requiredCounterexample =
      .arr [.obj [("required", .arr [.str "x"])]] from rfl] at h
  cases h with
  | prim _ hp => exact Bool.noConfusion hp
  | arr _ hall =>
    have h0 := hall (.obj [("required", .arr [.str "x"])])
      (List.mem_singleton.mpr rfl)
    cases h0 with
    | prim _ hp => exact Bool.noConfusion hp
    | obj _ hreq _ =>
      rcases hreq [.str "x"] rfl (.str "x") (List.mem_singleton.mpr rfl)
        with ⟨s, props, _, hprops, _⟩
      exact Option.noConfusion hprops

/-- C7 (amended): every output of `cleanSchema` satisfies the required-field
invariant at the root and at every schema position reachable from it
(properties values, items, union branches, array elements): whenever a node
carries both a `required` array and an object-valued `properties` map with
at least one key, the `required` array is non-empty and every entry is a
string naming an existing key of that map. -/
theorem cleanSchema_required_invariant (x : Json) :
    InvSchema (cleanSchema x) := by
  unfold cleanSchema
  split
  · exact invSchema_stringDefault
  · exact toGemini_invSchema PIPELINE_FUEL _

end Antigravity
